import Mathlib

/-!
Routing, glob matching and backend failover of goproxy: a shallow embedding of
`proxy/router.go` and `proxy/reverseproxy.go`.

Go strings are byte sequences; they are embedded as lists of byte values.
The standard-library functions the router calls (`strings.Index`,
`strings.HasPrefix`, `path.Match`, `path.Ext`, `utf8.DecodeRuneInString`)
are embedded next to the repository's own functions, following the Go
sources loop for loop.
-/

namespace Goproxy

/-- A Go string: a sequence of bytes. -/
abbrev GoString := List Nat

/-- The bytes of an ASCII string literal. -/
def ascii (s : String) : GoString := s.toList.map Char.toNat

/-! ## package strings -/

/-- Loop of `strings.Index`: the first index at or after `i` where `substr` starts, else `-1`. -/
def stringsIndexFrom (substr : GoString) : GoString → Nat → Int
  | [], i => if substr = [] then (i : Int) else -1
  | c :: s, i => if substr.isPrefixOf (c :: s) then (i : Int) else stringsIndexFrom substr s (i + 1)

/-- Go `strings.Index(s, substr)`: index of the first instance of `substr` in `s`, or `-1`. -/
def stringsIndex (s substr : GoString) : Int := stringsIndexFrom substr s 0

/-- Go `strings.HasPrefix(s, prefix)`. -/
def stringsHasPrefix (s pfx : GoString) : Bool := pfx.isPrefixOf s

/-- Go `strings.HasSuffix(s, suffix)`. -/
def stringsHasSuffix (s sfx : GoString) : Bool := sfx.isSuffixOf s

/-- Go `strings.TrimPrefix(s, prefix)`. -/
def stringsTrimPrefix (s pfx : GoString) : GoString :=
  if stringsHasPrefix s pfx then s.drop pfx.length else s

/-- Go `strings.Contains(s, substr)`. -/
def stringsContains (s substr : GoString) : Bool := decide (0 ≤ stringsIndex s substr)

/-- Go `strings.Count(s, "/")` and friends, for a one-byte separator. -/
def stringsCountByte (s : GoString) (b : Nat) : Nat := s.count b

/-! ## package unicode/utf8 -/

/-- Go `utf8.RuneError`. -/
def RuneError : Nat := 0xFFFD

/-- Whether `b` is a UTF-8 continuation byte (`locb ≤ b ≤ hicb`). -/
def isCont (b : Nat) : Bool := decide (0x80 ≤ b ∧ b ≤ 0xBF)

/-- Go `utf8.DecodeRuneInString`: the first rune of `s` and its width in bytes. -/
def decodeRune : GoString → Nat × Nat
  | [] => (RuneError, 0)
  | s0 :: rest =>
    if s0 < 0x80 then (s0, 1)
    else if s0 < 0xC2 then (RuneError, 1)
    else if s0 < 0xE0 then
      match rest with
      | s1 :: _ => if isCont s1 then ((s0 % 32) * 64 + s1 % 64, 2) else (RuneError, 1)
      | _ => (RuneError, 1)
    else if s0 < 0xF0 then
      match rest with
      | s1 :: s2 :: _ =>
        let lo := if s0 = 0xE0 then 0xA0 else 0x80
        let hi := if s0 = 0xED then 0x9F else 0xBF
        if s1 < lo ∨ hi < s1 then (RuneError, 1)
        else if !isCont s2 then (RuneError, 1)
        else ((s0 % 16) * 4096 + (s1 % 64) * 64 + s2 % 64, 3)
      | _ => (RuneError, 1)
    else if s0 < 0xF5 then
      match rest with
      | s1 :: s2 :: s3 :: _ =>
        let lo := if s0 = 0xF0 then 0x90 else 0x80
        let hi := if s0 = 0xF4 then 0x8F else 0xBF
        if s1 < lo ∨ hi < s1 then (RuneError, 1)
        else if !isCont s2 then (RuneError, 1)
        else if !isCont s3 then (RuneError, 1)
        else ((s0 % 8) * 262144 + (s1 % 64) * 4096 + (s2 % 64) * 64 + s3 % 64, 4)
      | _ => (RuneError, 1)
    else (RuneError, 1)

/-! ## package path -/

/-- Scan loop of `scanChunk`: the index of the first `*` outside a character class,
a backslash hiding the byte after it. -/
def scanIndex : GoString → Bool → Nat
  | [], _ => 0
  | 92 :: _ :: rest, inrange => 2 + scanIndex rest inrange
  | c :: rest, inrange =>
    if c = 91 then 1 + scanIndex rest true
    else if c = 93 then 1 + scanIndex rest false
    else if c = 42 ∧ !inrange then 0
    else 1 + scanIndex rest inrange

/-- Go `path.scanChunk`: leading stars, the chunk up to the next star, and the rest. -/
def scanChunk (pattern : GoString) : Bool × GoString × GoString :=
  let star := decide (pattern.head? = some 42)
  let p := pattern.dropWhile (fun c => c == 42)
  let i := scanIndex p false
  (star, p.take i, p.drop i)

/-- Go `path.getEsc`: one possibly escaped rune of a character class: `(r, nchunk, err)`. -/
def getEsc (chunk : GoString) : Nat × GoString × Bool :=
  match chunk with
  | [] => (0, [], true)
  | c :: tl =>
    if c = 45 ∨ c = 93 then (0, [], true)
    else
      let chunk1 := if c = 92 then tl else chunk
      if chunk1 = [] then (0, [], true)
      else
        let (r, n) := decodeRune chunk1
        let nchunk := chunk1.drop n
        (r, nchunk, decide ((r = RuneError ∧ n = 1) ∨ nchunk = []))

/-- The range loop of a character class in `matchChunk`, `r` being the rune read from the
name: `some (chunk, match)` after the closing bracket, `none` for `ErrBadPattern`. -/
def classLoop (r : Nat) : Nat → GoString → Bool → Nat → Option (GoString × Bool)
  | 0, _, _, _ => none
  | fuel + 1, chunk, mtch, nrange =>
    if chunk.head? = some 93 ∧ 0 < nrange then some (chunk.tail, mtch)
    else
      let (lo, chunk1, err1) := getEsc chunk
      if err1 then none
      else if chunk1.head? = some 45 then
        let (hi, chunk2, err2) := getEsc chunk1.tail
        if err2 then none
        else classLoop r fuel chunk2 (mtch || decide (lo ≤ r ∧ r ≤ hi)) (nrange + 1)
      else classLoop r fuel chunk1 (mtch || decide (lo ≤ r ∧ r ≤ lo)) (nrange + 1)

/-- The loop of `matchChunk` over the chunk, with the `failed` flag: `(rest, ok, err)`. -/
def matchChunkLoop : Nat → GoString → GoString → Bool → GoString × Bool × Bool
  | 0, _, s, failed => if failed then ([], false, false) else (s, true, false)
  | fuel + 1, chunk, s, failed =>
    match chunk with
    | [] => if failed then ([], false, false) else (s, true, false)
    | c :: ctl =>
      let failed := failed || decide (s = [])
      if c = 91 then
        let (r, n) := if failed then (0, 0) else decodeRune s
        let s := s.drop n
        let negated := decide (ctl.head? = some 94)
        let chunk1 := if negated then ctl.tail else ctl
        match classLoop r (chunk1.length + 1) chunk1 false 0 with
        | none => ([], false, true)
        | some (chunk2, mtch) =>
          matchChunkLoop fuel chunk2 s (failed || (mtch == negated))
      else if c = 63 then
        if failed then matchChunkLoop fuel ctl s failed
        else matchChunkLoop fuel ctl (s.drop (decodeRune s).2) (decide (s.head? = some 47))
      else if c = 92 then
        match ctl with
        | [] => ([], false, true)
        | e :: etl =>
          if failed then matchChunkLoop fuel etl s failed
          else matchChunkLoop fuel etl s.tail (decide (s.head? ≠ some e))
      else
        if failed then matchChunkLoop fuel ctl s failed
        else matchChunkLoop fuel ctl s.tail (decide (s.head? ≠ some c))

/-- Go `path.matchChunk(chunk, s)`: `(rest, ok, err)`. -/
def matchChunk (chunk s : GoString) : GoString × Bool × Bool :=
  matchChunkLoop chunk.length chunk s false

/-- Outcome of the loop in `Match` that tries a chunk after skipping bytes for a star. -/
inductive StarResult where
  | found (t : GoString)
  | bad
  | exhausted
  deriving DecidableEq, Repr

/-- The loop `for i := 0; i < len(name) && name[i] != '/'; i++` of `Match`. -/
def starLoop (chunk pattern : GoString) : GoString → StarResult
  | [] => .exhausted
  | c :: rest =>
    if c = 47 then .exhausted
    else
      let (t, ok, err) := matchChunk chunk rest
      if ok then
        if pattern = [] ∧ t ≠ [] then starLoop chunk pattern rest else .found t
      else if err then .bad
      else starLoop chunk pattern rest

/-- The final loop of `Match`: whether the rest of the pattern is malformed. -/
def restBad : Nat → GoString → Bool
  | 0, _ => false
  | fuel + 1, pattern =>
    if pattern = [] then false
    else
      let (_, chunk, pattern1) := scanChunk pattern
      if (matchChunk chunk []).2.2 then true else restBad fuel pattern1

/-- The `Pattern:` loop of `Match`: `(matched, err)`. -/
def matchLoop : Nat → GoString → GoString → Bool × Bool
  | 0, _, name => (decide (name = []), false)
  | fuel + 1, pattern, name =>
    if pattern = [] then (decide (name = []), false)
    else
      let (star, chunk, pattern1) := scanChunk pattern
      if star ∧ chunk = [] then (!name.contains 47, false)
      else
        let (t, ok, err) := matchChunk chunk name
        if ok ∧ (t = [] ∨ pattern1 ≠ []) then matchLoop fuel pattern1 t
        else if err then (false, true)
        else
          match (if star then starLoop chunk pattern1 name else .exhausted) with
          | .found t1 => matchLoop fuel pattern1 t1
          | .bad => (false, true)
          | .exhausted => (false, restBad pattern1.length pattern1)

/-- Go `path.Match(pattern, name)`: `(matched, err)`, `err` standing for `ErrBadPattern`. -/
def pathMatch (pattern name : GoString) : Bool × Bool :=
  matchLoop pattern.length pattern name

/-- Go `path.Ext(path)`, scanning from the end: the loop over the reversed path, `acc` being
the bytes already passed. -/
def pathExtLoop : GoString → GoString → GoString
  | [], _ => []
  | c :: rest, acc =>
    if c = 47 then []
    else if c = 46 then c :: acc
    else pathExtLoop rest (c :: acc)

/-- Go `path.Ext(path)`: the suffix from the last dot of the last element, or empty. -/
def pathExt (path : GoString) : GoString := pathExtLoop path.reverse []

/-! ## GlobsMatchPath -/

/-- The inner loop of `GlobsMatchPath`: walk `target` from index `i`, counting slashes down
from `n`; the result is the prefix (cut at the slash met with `n = 0`) and the final `n`. -/
def truncateLoop (target : GoString) : GoString → Nat → Nat → GoString × Nat
  | [], _, n => (target, n)
  | c :: rest, i, n =>
    if c = 47 then
      if n = 0 then (target.take i, n)
      else truncateLoop target rest (i + 1) (n - 1)
    else truncateLoop target rest (i + 1) n

/-- The loop `for globs != ""` of `GlobsMatchPath`. -/
def GlobsMatchPathLoop : Nat → GoString → GoString → Bool
  | 0, _, _ => false
  | fuel + 1, globs, target =>
    if globs = [] then false
    else
      let i := stringsIndex globs [44]
      let glob := if 0 ≤ i then globs.take i.toNat else globs
      let globs1 := if 0 ≤ i then globs.drop (i.toNat + 1) else []
      if glob = [] then GlobsMatchPathLoop fuel globs1 target
      else
        let n := stringsCountByte glob 47
        let (pfx, n1) := truncateLoop target target 0 n
        if 0 < n1 then GlobsMatchPathLoop fuel globs1 target
        else if (pathMatch glob pfx).1 then true
        else GlobsMatchPathLoop fuel globs1 target

/-- Go `GlobsMatchPath(globs, target)`. Every pass of the loop shortens `globs`, so
`len(globs)` passes are enough. -/
def GlobsMatchPath (globs target : GoString) : Bool :=
  GlobsMatchPathLoop globs.length globs target

/-! ## reverseproxy.go: backends and the per-request retry state -/

/-- Go `RetryWithSameBackendTimes`. -/
def RetryWithSameBackendTimes : Int := 1

/-- One upstream: its URL (the `ReverseProxy` of a backend is identified by the position
of the backend in `Upstream.Backends`). -/
structure Backend where
  URL : GoString
  deriving DecidableEq, Repr

/-- Go `Upstream`. -/
structure Upstream where
  Backends : List Backend
  deriving DecidableEq, Repr

/-- Go `(*Upstream).AddBackend`. -/
def Upstream.AddBackend (u : Upstream) (backend : Backend) : Upstream :=
  { u with Backends := u.Backends ++ [backend] }

/-- The two values a request context carries: the one stored under
`RetryTimesWithSameBackendKey{}` and the one under `BackendIndexKey{}`, `none` when the key
is not set. -/
structure Context where
  retryTimes : Option Int
  backendIndex : Option Int
  deriving DecidableEq, Repr

/-- What the router reads of an `*http.Request`: `r.URL.Path` and `r.Context()`. -/
structure Request where
  path : GoString
  ctx : Context
  deriving DecidableEq, Repr

/-- Go `GetRetryTimesFromContext`. -/
def GetRetryTimesFromContext (r : Request) : Int :=
  match r.ctx.retryTimes with
  | some retry => retry
  | none => 0

/-- Go `GetBackendIndexFromContext`. -/
def GetBackendIndexFromContext (r : Request) : Int :=
  match r.ctx.backendIndex with
  | some retry => retry
  | none => 0

/-- What a handler does with a request: the call it ends in. -/
inductive Handled where
  /-- Call of `sumdb.Handler(w, r)`. -/
  | sumdbHandler (r : Request)
  /-- Call of `rt.srv.ServeHTTP(w, r)`, the local server. -/
  | srvServeHTTP (r : Request)
  /-- Call of `Backends[backend].ReverseProxy.ServeHTTP(rw, r)`. -/
  | reverseProxyServeHTTP (backend : Nat) (r : Request)
  /-- Calls `w.Header().Set("Content-Type", ctype)` and
  `http.ServeContent(w, r, "", modtime, f)`. -/
  | serveContent (ctype : GoString) (modTime : Int) (content : GoString)
  /-- Call of `http.Error(w, msg, code)`. -/
  | httpError (msg : GoString) (code : Nat)
  /-- Return with nothing forwarded and nothing written to the response. -/
  | nothing (r : Request)
  /-- A run-time panic (nil pointer dereference, index out of range). -/
  | panic
  deriving DecidableEq, Repr

/-- Go `(*Upstream).RoundRobin`. -/
def Upstream.RoundRobin (u : Upstream) (r : Request) : Handled :=
  let index := GetBackendIndexFromContext r
  if (u.Backends.length : Int) ≤ index then .nothing r
  else if index < 0 then .panic
  else .reverseProxyServeHTTP index.toNat r

/-- Go `(*Upstream).ServeHTTP`. -/
def Upstream.ServeHTTP (u : Upstream) (r : Request) : Handled :=
  if u.Backends.length = 0 then .panic
  else .reverseProxyServeHTTP 0 r

/-- The `proxy.ErrorHandler` closure `NewRouter` installs on the backend at position
`backend` of `upstream`. -/
def ErrorHandler (upstream : Upstream) (backend : Nat) (r : Request) : Handled :=
  let retries := GetRetryTimesFromContext r
  if retries < RetryWithSameBackendTimes then
    let ctx := { r.ctx with retryTimes := some (retries + 1) }
    .reverseProxyServeHTTP backend { r with ctx := ctx }
  else
    let backendIndex := GetBackendIndexFromContext r
    let backendIndex := backendIndex + 1
    let ctx := { r.ctx with backendIndex := some backendIndex }
    upstream.RoundRobin { r with ctx := ctx }

/-- One transport attempt: the backend it went to and the request it carried. -/
structure Attempt where
  backend : Nat
  r : Request
  deriving DecidableEq, Repr

/-- The result of serving one client request through the upstream. -/
structure Served where
  attempts : List Attempt
  final : Handled
  deriving DecidableEq, Repr

/-- Run of `httputil.ReverseProxy.ServeHTTP` with the error handlers of `NewRouter`:
`transport backend k` tells whether the round trip to `backend` succeeds when `k` attempts
were made before. A failed round trip calls the backend's `ErrorHandler`; a successful one
ends the run at that backend. `none` when the fuel runs out. -/
def serve (upstream : Upstream) (transport : Nat → Nat → Bool) :
    Nat → Handled → List Attempt → Option Served
  | 0, _, _ => none
  | fuel + 1, h, done =>
    match h with
    | .reverseProxyServeHTTP backend r =>
      let done1 := done ++ [⟨backend, r⟩]
      if transport backend done.length then some ⟨done1, h⟩
      else serve upstream transport fuel (ErrorHandler upstream backend r) done1
    | _ => some ⟨done, h⟩

/-! ## router.go -/

/-- Go `ListExpire`, in nanoseconds. -/
def ListExpire : Int := 5 * 60 * 1000000000

/-- Go `RouterOptions`; `Proxies` holds the URLs. -/
structure RouterOptions where
  Pattern : GoString
  Proxies : List GoString
  DownloadRoot : GoString
  deriving DecidableEq, Repr

/-- Modelled from the spec: the local authoritative server (`proxy.Server`), "treated as
opaque"; only its identity matters to the router. -/
structure Server where
  id : Nat
  deriving DecidableEq, Repr

/-- Go `Router`; `proxyUpstream` is a pointer, `none` standing for `nil`. -/
structure Router where
  srv : Server
  proxyUpstream : Option Upstream
  pattern : GoString
  downloadRoot : GoString
  deriving DecidableEq, Repr

/-- Go `NewRouter`, as far as the fields of the router go. -/
def NewRouter (srv : Server) (opts : Option RouterOptions) : Router :=
  let rt : Router := { srv := srv, proxyUpstream := none, pattern := [], downloadRoot := [] }
  let upstream : Upstream := { Backends := [] }
  match opts with
  | none => rt
  | some opts =>
    if opts.Proxies.length = 0 then rt
    else
      let upstream := opts.Proxies.foldl (fun u url => u.AddBackend { URL := url }) upstream
      { rt with proxyUpstream := some upstream, pattern := opts.Pattern,
                downloadRoot := opts.DownloadRoot }

/-- Go `(*Router).Direct`. -/
def Router.Direct (rt : Router) (path : GoString) : Bool :=
  if rt.pattern = [] then false
  else GlobsMatchPath rt.pattern path

/-- Go `os.FileInfo`, as far as the router reads it: `ModTime()` in nanoseconds. -/
structure FileInfo where
  modTime : Int
  deriving DecidableEq, Repr

/-- The world around a request: the clock, the file system calls and `filepath.Join`. -/
structure Env where
  /-- Go `time.Now()`, in nanoseconds. -/
  now : Int
  /-- Go `os.Stat(file)`: `some info` when `err == nil`. -/
  osStat : GoString → Option FileInfo
  /-- Go `os.Open(file)`: `some content` when `err == nil`. -/
  osOpen : GoString → Option GoString
  /-- Go `filepath.Join(root, path)`. -/
  filepathJoin : GoString → GoString → GoString

/-- Go `time.Since(t)`. -/
def Env.timeSince (env : Env) (t : Int) : Int := env.now - t

/-- Go `(*Router).ServeHTTP`. -/
def Router.ServeHTTP (env : Env) (rt : Router) (r : Request) : Handled :=
  if stringsHasPrefix r.path (ascii "/sumdb/") then .sumdbHandler r
  else
    match rt.proxyUpstream with
    | none => .panic
    | some proxyUpstream =>
      if proxyUpstream.Backends.length = 0 ∨ rt.Direct (stringsTrimPrefix r.path (ascii "/"))
      then .srvServeHTTP r
      else
        let file := env.filepathJoin rt.downloadRoot r.path
        match env.osStat file, env.osOpen file with
        | some info, some f =>
          if stringsHasSuffix r.path (ascii "/@latest") then
            if ListExpire ≤ env.timeSince info.modTime then proxyUpstream.ServeHTTP r
            else .serveContent (ascii "text/plain; charset=UTF-8") info.modTime f
          else
            let i := stringsIndex r.path (ascii "/@v/")
            if i < 0 then .httpError (ascii "no such path") 404
            else
              let what := r.path.drop (i.toNat + (ascii "/@v/").length)
              if what = ascii "list" then
                if ListExpire ≤ env.timeSince info.modTime then proxyUpstream.ServeHTTP r
                else .serveContent (ascii "text/plain; charset=UTF-8") info.modTime f
              else
                let ext := pathExt what
                if ext = ascii ".info" then
                  .serveContent (ascii "application/json") info.modTime f
                else if ext = ascii ".mod" then
                  .serveContent (ascii "text/plain; charset=UTF-8") info.modTime f
                else if ext = ascii ".zip" then
                  .serveContent (ascii "application/octet-stream") info.modTime f
                else .httpError (ascii "request not recognized") 404
        | _, _ => proxyUpstream.ServeHTTP r

/-! ### The response hook `proxy.ModifyResponse` -/

/-- Go `http.Header`: a map from canonical keys to value lists. -/
abbrev Header := GoString → Option (List GoString)

/-- Go `Header.Get`: the first value under `key`, or the empty string. -/
def Header.Get (h : Header) (key : GoString) : GoString :=
  match h key with
  | some (v :: _) => v
  | _ => []

/-- Go `Header.Del`. -/
def Header.Del (h : Header) (key : GoString) : Header :=
  fun k => if k = key then none else h k

/-- Go `Header.Set`. -/
def Header.Set (h : Header) (key value : GoString) : Header :=
  fun k => if k = key then some [value] else h k

/-- Go `strconv.Itoa`, for a length. -/
def strconvItoa (n : Nat) : GoString := (Nat.toDigits 10 n).map Char.toNat

/-- What the hook reads of an `*http.Response`. `Body` is what reading the body to its end
yields, `none` when the read fails; `requestPath` is `r.Request.URL.Path`. -/
structure Response where
  StatusCode : Int
  Header : Header
  Body : Option GoString
  requestPath : GoString

/-- The cache directory: the content of each file that exists. -/
abbrev Disk := GoString → Option GoString

/-- The errors `ModifyResponse` returns. -/
inductive ProxyError where
  | gzip
  | read
  | write
  | missingLocation
  | parseLocation
  | get
  deriving DecidableEq, Repr

/-- The world around a response: the gzip decoder, the cache writer and the HTTP client. -/
structure Net where
  /-- Go `gzip.NewReader` followed by `ioutil.ReadAll`: `none` when either fails. -/
  gunzip : GoString → Option GoString
  /-- Go `filepath.Join(root, path)`. -/
  filepathJoin : GoString → GoString → GoString
  /-- Whether `renameio.WriteFile` to this file goes through. -/
  writable : GoString → Bool
  /-- Whether `url.Parse` accepts the location. -/
  urlParse : GoString → Bool
  /-- Go `http.Get(loc)`: `none` when it returns an error. -/
  httpGet : GoString → Option Response

/-- Modelled from the spec: `renameio.WriteFile`, the atomic file writer, which "guarantees
the destination either is fully replaced with the new content or is left unchanged"; `none`
is the failed write. -/
def renameioWriteFile (ok : Bool) (disk : Disk) (file data : GoString) : Option Disk :=
  if ok then some (fun f => if f = file then some data else disk f) else none

/-- The `proxy.ModifyResponse` closure of `NewRouter`: the error it returns (`none` for
`nil`), the response as it leaves it, and the cache directory afterwards. -/
def ModifyResponse (net : Net) (DownloadRoot : GoString) (disk : Disk) (r : Response) :
    Option ProxyError × Response × Disk :=
  -- if r.StatusCode == http.StatusOK
  let ok : Option ProxyError × Response × Disk :=
    if r.StatusCode = 200 then
      let read : Except ProxyError (GoString × Response) :=
        if stringsContains (r.Header.Get (ascii "Content-Encoding")) (ascii "gzip") then
          match r.Body.bind net.gunzip with
          | none => .error .gzip
          | some buf =>
            let header := r.Header.Del (ascii "Content-Encoding")
            let decompressedBodyLength := strconvItoa buf.length
            .ok (buf, { r with
              Header := header.Set (ascii "Content-Length") decompressedBodyLength })
        else
          match r.Body with
          | none => .error .read
          | some buf => .ok (buf, r)
      match read with
      | .error e => (some e, r, disk)
      | .ok (buf, r) =>
        let r := { r with Body := some buf }
        -- `ioutil.ReadAll` returns a non-nil slice, so `buf != nil` holds
        let file := net.filepathJoin DownloadRoot r.requestPath
        match renameioWriteFile (net.writable file) disk file buf with
        | none => (some .write, r, disk)
        | some disk => (none, r, disk)
    else (none, r, disk)
  match ok with
  | (some e, r, disk) => (some e, r, disk)
  | (none, r, disk) =>
    -- if r.StatusCode == http.StatusFound
    if r.StatusCode = 302 then
      let loc := r.Header.Get (ascii "Location")
      if loc = [] then (some .missingLocation, r, disk)
      else if !net.urlParse loc then (some .parseLocation, r, disk)
      else
        match net.httpGet loc with
        | none => (some .get, r, disk)
        | some resp =>
          let read : Except ProxyError GoString :=
            if stringsContains (resp.Header.Get (ascii "Content-Encoding")) (ascii "gzip") then
              match resp.Body.bind net.gunzip with
              | none => .error .gzip
              | some buf => .ok buf
            else
              match resp.Body with
              | none => .error .read
              | some buf => .ok buf
          match read with
          | .error e => (some e, r, disk)
          | .ok buf =>
            let file := net.filepathJoin DownloadRoot r.requestPath
            match renameioWriteFile (net.writable file) disk file buf with
            | none => (some .write, r, disk)
            | some disk => (none, r, disk)
    else (none, r, disk)

/-! ## Vocabulary of the statements -/

/-- The entries of a comma-separated list. -/
def entries (globs : GoString) : List GoString := globs.splitOn 44

/-- The first `k` slash-separated elements of `target`, joined by slashes again: `target`
cut just before its `k`-th slash, or all of `target` when it has fewer slashes. -/
def firstElements (k : Nat) (target : GoString) : GoString :=
  [47].intercalate ((target.splitOn 47).take k)

/-- Structural form of the cut made by `truncateLoop`. -/
def cutSlash : Nat → GoString → GoString
  | _, [] => []
  | n, c :: rest =>
    if c = 47 then (if n = 0 then [] else c :: cutSlash (n - 1) rest)
    else c :: cutSlash n rest

/-- The test `GlobsMatchPath` applies to one entry of the list. -/
def globMatches (target g : GoString) : Bool :=
  decide (g ≠ []) && decide (g.count 47 ≤ target.count 47) &&
    (pathMatch g (firstElements (g.count 47 + 1) target)).1

/-- A path prefix of `target`: `target` itself, or `target` cut just before one of its
slashes. -/
def IsPathPrefix (p target : GoString) : Prop := p = target ∨ (p ++ [47]) <+: target

instance (p target : GoString) : Decidable (IsPathPrefix p target) := by
  unfold IsPathPrefix; infer_instance

/-- The transport of an upstream all of whose backends always fail. -/
def allFail : Nat → Nat → Bool := fun _ _ => false

/-- The request as it travels after the first failover: one same-backend retry counted,
backend index `k`. -/
def failedOver (r : Request) (k : Nat) : Request :=
  { r with ctx := { retryTimes := some 1, backendIndex := some (k : Int) } }

/-- The part of the path after its first `/@v/`, the `what` of `ServeHTTP`. -/
def afterV (path : GoString) : GoString :=
  path.drop ((stringsIndex path (ascii "/@v/")).toNat + 4)

/-- A "latest" query or a "list" query. -/
def isListing (path : GoString) : Prop :=
  stringsHasSuffix path (ascii "/@latest") = true ∨
    (0 ≤ stringsIndex path (ascii "/@v/") ∧ afterV path = ascii "list")

/-- The content type `ServeHTTP` picks from `path.Ext(what)`, `none` when the extension is
not recognized. -/
def ctypeOfExt (ext : GoString) : Option GoString :=
  if ext = ascii ".info" then some (ascii "application/json")
  else if ext = ascii ".mod" then some (ascii "text/plain; charset=UTF-8")
  else if ext = ascii ".zip" then some (ascii "application/octet-stream")
  else none

/-! ## Example inputs -/

/-- The router of the examples: one backend, no direct pattern. -/
def exampleRouter : Router :=
  NewRouter ⟨0⟩ (some ⟨[], [ascii "https://goproxy.io"], ascii "/cache"⟩)

/-- The world of the examples: the clock stands at `now`; when `cached`, every file exists
with modification time 0, and it opens (with content `data`) only when `readable` too. -/
def exampleEnv (now : Int) (cached readable : Bool) : Env :=
  { now := now
    osStat := fun _ => if cached then some ⟨0⟩ else none
    osOpen := fun _ => if cached ∧ readable then some (ascii "data") else none
    filepathJoin := fun root path => root ++ path }

/-- The network of the examples: the only gzip stream is `GZ`, the encoding of `hello`;
the cache can be written when `writable`. -/
def exampleNet (writable : Bool) : Net :=
  { gunzip := fun body => if body = ascii "GZ" then some (ascii "hello") else none
    filepathJoin := fun root path => root ++ path
    writable := fun _ => writable
    urlParse := fun _ => true
    httpGet := fun _ => none }

/-- A 200 response that declares gzip, with the given body, for `/m/@v/list`. -/
def exampleResponse (body : GoString) : Response :=
  { StatusCode := 200
    Header := fun k => if k = ascii "Content-Encoding" then some [ascii "gzip"] else none
    Body := some body
    requestPath := ascii "/m/@v/list" }

/-- The empty cache directory. -/
def emptyDisk : Disk := fun _ => none

/-! # Theorems -/

/-! ## Fuel of the `path.Match` loops -/

theorem decodeRune_size_pos (s0 : Nat) (rest : GoString) :
    1 ≤ (decodeRune (s0 :: rest)).2 := by
  simp only [decodeRune]
  repeat' split
  all_goals simp

theorem getEsc_length (chunk nchunk : GoString) (r : Nat)
    (h : getEsc chunk = (r, nchunk, false)) : nchunk.length < chunk.length := by
  cases chunk with
  | nil => simp [getEsc] at h
  | cons c tl =>
    by_cases h1 : c = 45 ∨ c = 93
    · simp [getEsc, h1] at h
    · by_cases h2 : c = 92
      · subst h2
        cases tl with
        | nil => simp [getEsc] at h
        | cons e etl =>
          have hp := decodeRune_size_pos e etl
          simp only [getEsc, h1, if_false, if_true, List.cons_ne_nil, Prod.mk.injEq] at h
          obtain ⟨_, h3, _⟩ := h
          rw [← h3, List.length_drop]
          simp only [List.length_cons]
          omega
      · have hp := decodeRune_size_pos c tl
        simp only [getEsc, h1, h2, if_false, List.cons_ne_nil, Prod.mk.injEq] at h
        obtain ⟨_, h3, _⟩ := h
        rw [← h3, List.length_drop]
        simp only [List.length_cons]
        omega

theorem classLoop_length (r : Nat) :
    ∀ (fuel : Nat) (chunk : GoString) (mtch : Bool) (nrange : Nat) (out : GoString × Bool),
      classLoop r fuel chunk mtch nrange = some out → out.1.length < chunk.length := by
  intro fuel
  induction fuel with
  | zero => intro chunk mtch nrange out h; simp [classLoop] at h
  | succ fuel ih =>
    intro chunk mtch nrange out h
    rw [classLoop] at h
    by_cases h1 : chunk.head? = some 93 ∧ 0 < nrange
    · simp only [h1, and_self, if_true, Option.some.injEq] at h
      cases chunk with
      | nil => simp at h1
      | cons c tl => simp [← h]
    · rcases hg : getEsc chunk with ⟨lo, chunk1, err1⟩
      simp only [h1, if_false, hg] at h
      cases err1 with
      | true => simp at h
      | false =>
        have hl1 := getEsc_length chunk chunk1 lo hg
        simp only [Bool.false_eq_true, if_false] at h
        by_cases h2 : chunk1.head? = some 45
        · rcases hg2 : getEsc chunk1.tail with ⟨hi, chunk2, err2⟩
          simp only [h2, if_true, hg2] at h
          cases err2 with
          | true => simp at h
          | false =>
            have hl2 := getEsc_length chunk1.tail chunk2 hi hg2
            simp only [Bool.false_eq_true, if_false] at h
            have := ih chunk2 _ _ out h
            have ht : chunk1.tail.length ≤ chunk1.length := by simp
            omega
        · simp only [h2, if_false] at h
          have := ih chunk1 _ _ out h
          omega

theorem classLoop_fuel (r : Nat) :
    ∀ (f1 f2 : Nat) (chunk : GoString) (mtch : Bool) (nrange : Nat),
      chunk.length < f1 → chunk.length < f2 →
      classLoop r f1 chunk mtch nrange = classLoop r f2 chunk mtch nrange := by
  intro f1
  induction f1 with
  | zero => intro f2 chunk mtch nrange h; omega
  | succ f1 ih =>
    intro f2 chunk mtch nrange h1 h2
    obtain ⟨g2, rfl⟩ := Nat.exists_eq_succ_of_ne_zero (by omega : f2 ≠ 0)
    rw [classLoop, classLoop]
    by_cases hc : chunk.head? = some 93 ∧ 0 < nrange
    · simp [hc]
    · rcases hg : getEsc chunk with ⟨lo, chunk1, err1⟩
      simp only [hc, if_false]
      cases err1 with
      | true => simp
      | false =>
        have hl1 := getEsc_length chunk chunk1 lo hg
        simp only [Bool.false_eq_true, if_false]
        by_cases h3 : chunk1.head? = some 45
        · rcases hg2 : getEsc chunk1.tail with ⟨hi, chunk2, err2⟩
          simp only [h3, if_true]
          cases err2 with
          | true => simp
          | false =>
            have hl2 := getEsc_length chunk1.tail chunk2 hi hg2
            have ht : chunk1.tail.length ≤ chunk1.length := by simp
            simp only [Bool.false_eq_true, if_false]
            exact ih g2 chunk2 _ _ (by omega) (by omega)
        · simp only [h3, if_false]
          exact ih g2 chunk1 _ _ (by omega) (by omega)

theorem matchChunkLoop_nil (fuel : Nat) (s : GoString) (failed : Bool) :
    matchChunkLoop fuel [] s failed = if failed then ([], false, false) else (s, true, false) := by
  cases fuel <;> simp [matchChunkLoop]

theorem matchChunkLoop_fuel :
    ∀ (f1 f2 : Nat) (chunk s : GoString) (failed : Bool),
      chunk.length ≤ f1 → chunk.length ≤ f2 →
      matchChunkLoop f1 chunk s failed = matchChunkLoop f2 chunk s failed := by
  intro f1
  induction f1 with
  | zero =>
    intro f2 chunk s failed h1 _
    have : chunk = [] := List.length_eq_zero.mp (Nat.le_zero.mp h1)
    subst this
    rw [matchChunkLoop_nil, matchChunkLoop_nil]
  | succ f1 ih =>
    intro f2 chunk s failed h1 h2
    cases chunk with
    | nil => rw [matchChunkLoop_nil, matchChunkLoop_nil]
    | cons c ctl =>
      obtain ⟨g2, rfl⟩ := Nat.exists_eq_succ_of_ne_zero
        (by simp only [List.length_cons] at h2; omega : f2 ≠ 0)
      simp only [List.length_cons] at h1 h2
      simp only [matchChunkLoop]
      by_cases hc1 : c = 91
      · simp only [if_pos hc1]
        have htl : (if decide (ctl.head? = some 94) = true then ctl.tail else ctl).length
            ≤ ctl.length := by
          split_ifs <;> simp
        cases hcl : classLoop (if (failed || decide (s = [])) = true then (0, 0)
              else decodeRune s).1
            ((if decide (ctl.head? = some 94) = true then ctl.tail else ctl).length + 1)
            (if decide (ctl.head? = some 94) = true then ctl.tail else ctl) false 0 with
        | none => rfl
        | some out =>
          have hlen := classLoop_length _ _ _ _ _ out hcl
          obtain ⟨chunk2, mtch⟩ := out
          simp only at hlen ⊢
          exact ih g2 chunk2 _ _ (by omega) (by omega)
      · by_cases hc2 : c = 63
        · simp only [if_neg hc1, if_pos hc2]
          split_ifs
          · exact ih g2 ctl _ _ (by omega) (by omega)
          · exact ih g2 ctl _ _ (by omega) (by omega)
        · by_cases hc3 : c = 92
          · simp only [if_neg hc1, if_neg hc2, if_pos hc3]
            cases ctl with
            | nil => rfl
            | cons e etl =>
              simp only [List.length_cons] at h1 h2
              simp only []
              split_ifs
              · exact ih g2 etl _ _ (by omega) (by omega)
              · exact ih g2 etl _ _ (by omega) (by omega)
          · simp only [if_neg hc1, if_neg hc2, if_neg hc3]
            split_ifs
            · exact ih g2 ctl _ _ (by omega) (by omega)
            · exact ih g2 ctl _ _ (by omega) (by omega)

/-- Every amount of fuel from `len(chunk)` on gives `matchChunk` the same result. -/
theorem matchChunk_fuel (fuel : Nat) (chunk s : GoString) (h : chunk.length ≤ fuel) :
    matchChunkLoop fuel chunk s false = matchChunk chunk s :=
  matchChunkLoop_fuel fuel chunk.length chunk s false h (Nat.le_refl _)

theorem scanIndex_pos (c : Nat) (tl : GoString) (h : c ≠ 42) :
    1 ≤ scanIndex (c :: tl) false := by
  by_cases h92 : c = 92
  · subst h92
    cases tl with
    | nil => simp [scanIndex]
    | cons e rest =>
      simp only [scanIndex]
      omega
  · have e : scanIndex (c :: tl) false =
        if c = 91 then 1 + scanIndex tl true
        else if c = 93 then 1 + scanIndex tl false
        else if c = 42 ∧ (!false) = true then 0
        else 1 + scanIndex tl false := by
      rw [scanIndex]
      · intro a b hab
        exact absurd hab h92
    rw [e]
    simp only [h, false_and, if_false]
    split_ifs <;> omega

theorem scanChunk_rest_length (pattern : GoString) (h : pattern ≠ []) :
    (scanChunk pattern).2.2.length < pattern.length := by
  cases pattern with
  | nil => exact absurd rfl h
  | cons c tl =>
    simp only [scanChunk, List.length_drop, List.length_cons]
    by_cases hc : c = 42
    · subst hc
      have : (List.dropWhile (fun c => c == 42) ((42 : Nat) :: tl)).length ≤ tl.length := by
        rw [List.dropWhile_cons_of_pos (by simp)]
        exact (List.dropWhile_sublist _).length_le
      omega
    · have e : List.dropWhile (fun c => c == 42) (c :: tl) = c :: tl := by
        rw [List.dropWhile_cons_of_neg (by simp [hc])]
      rw [e]
      have := scanIndex_pos c tl hc
      simp only [List.length_cons]
      omega

theorem restBad_fuel :
    ∀ (f1 f2 : Nat) (pattern : GoString), pattern.length ≤ f1 → pattern.length ≤ f2 →
      restBad f1 pattern = restBad f2 pattern := by
  intro f1
  induction f1 with
  | zero =>
    intro f2 pattern h1 _
    have : pattern = [] := List.length_eq_zero.mp (Nat.le_zero.mp h1)
    subst this
    cases f2 <;> simp [restBad]
  | succ f1 ih =>
    intro f2 pattern h1 h2
    by_cases hp : pattern = []
    · subst hp
      cases f2 <;> simp [restBad]
    · obtain ⟨g2, rfl⟩ := Nat.exists_eq_succ_of_ne_zero
        (by have := List.length_pos.mpr hp; omega : f2 ≠ 0)
      have hl := scanChunk_rest_length pattern hp
      simp only [restBad, if_neg hp]
      rw [ih g2 (scanChunk pattern).2.2 (by omega) (by omega)]

theorem matchLoop_fuel :
    ∀ (f1 f2 : Nat) (pattern name : GoString), pattern.length ≤ f1 → pattern.length ≤ f2 →
      matchLoop f1 pattern name = matchLoop f2 pattern name := by
  intro f1
  induction f1 with
  | zero =>
    intro f2 pattern name h1 _
    have : pattern = [] := List.length_eq_zero.mp (Nat.le_zero.mp h1)
    subst this
    cases f2 <;> simp [matchLoop]
  | succ f1 ih =>
    intro f2 pattern name h1 h2
    by_cases hp : pattern = []
    · subst hp
      cases f2 <;> simp [matchLoop]
    · obtain ⟨g2, rfl⟩ := Nat.exists_eq_succ_of_ne_zero
        (by have := List.length_pos.mpr hp; omega : f2 ≠ 0)
      have hl := scanChunk_rest_length pattern hp
      simp only [matchLoop, if_neg hp]
      have e : ∀ t, matchLoop f1 (scanChunk pattern).2.2 t
          = matchLoop g2 (scanChunk pattern).2.2 t :=
        fun t => ih g2 (scanChunk pattern).2.2 t (by omega) (by omega)
      simp only [e]

/-- Every amount of fuel from `len(pattern)` on gives `path.Match` the same result. -/
theorem pathMatch_fuel (fuel : Nat) (pattern name : GoString) (h : pattern.length ≤ fuel) :
    matchLoop fuel pattern name = pathMatch pattern name :=
  matchLoop_fuel fuel pattern.length pattern name h (Nat.le_refl _)

/-! ## `GlobsMatchPath` -/

theorem truncateLoop_eq :
    ∀ (rest : GoString) (pre : GoString) (n : Nat),
      truncateLoop (pre ++ rest) rest pre.length n
        = (pre ++ cutSlash n rest, n - rest.count 47) := by
  intro rest
  induction rest with
  | nil => intro pre n; simp [truncateLoop, cutSlash]
  | cons c rest ih =>
    intro pre n
    have h := ih (pre ++ [c])
    simp only [List.append_assoc, List.singleton_append, List.length_append,
      List.length_singleton] at h
    by_cases hc : c = 47
    · subst hc
      by_cases hn : n = 0
      · subst hn
        simp [truncateLoop, cutSlash]
      · simp only [truncateLoop, cutSlash, if_true, hn, if_false, h]
        simp only [List.count_cons_self]
        congr 1
        omega
    · simp only [truncateLoop, cutSlash, hc, if_false, h]
      rw [List.count_cons_of_ne (Ne.symm hc)]

theorem truncateLoop_start (target : GoString) (n : Nat) :
    truncateLoop target target 0 n = (cutSlash n target, n - target.count 47) := by
  simpa using truncateLoop_eq target [] n

theorem intercalate_cons_of_ne_nil (sep a : GoString) (l : List GoString) (h : l ≠ []) :
    sep.intercalate (a :: l) = a ++ sep ++ sep.intercalate l := by
  cases l with
  | nil => exact absurd rfl h
  | cons b l => simp [List.intercalate, List.intersperse]

theorem intercalate_modifyHead_cons (sep : GoString) (c : Nat) (l : List GoString)
    (h : l ≠ []) :
    sep.intercalate (l.modifyHead (List.cons c)) = c :: sep.intercalate l := by
  cases l with
  | nil => exact absurd rfl h
  | cons b l =>
    cases l with
    | nil => simp [List.intercalate, List.intersperse]
    | cons b2 l => simp [List.intercalate, List.intersperse]

theorem splitOn_ne_nil (b : Nat) (s : GoString) : s.splitOn b ≠ [] :=
  List.splitOnP_ne_nil _ _

theorem splitOn_cons_self (b : Nat) (s : GoString) :
    (b :: s).splitOn b = [] :: s.splitOn b := by
  simp [List.splitOn, List.splitOnP_cons]

theorem splitOn_cons_of_ne (b c : Nat) (s : GoString) (h : c ≠ b) :
    (c :: s).splitOn b = (s.splitOn b).modifyHead (List.cons c) := by
  simp [List.splitOn, List.splitOnP_cons, h]

theorem cutSlash_eq_firstElements :
    ∀ (target : GoString) (n : Nat), cutSlash n target = firstElements (n + 1) target := by
  intro target
  induction target with
  | nil => intro n; simp [cutSlash, firstElements, List.splitOn, List.intercalate]
  | cons c rest ih =>
    intro n
    by_cases hc : c = 47
    · subst hc
      unfold firstElements
      rw [splitOn_cons_self, List.take_succ_cons]
      by_cases hn : n = 0
      · subst hn
        simp [cutSlash, List.intercalate]
      · obtain ⟨m, rfl⟩ := Nat.exists_eq_succ_of_ne_zero hn
        have hne : (rest.splitOn 47).take (m + 1) ≠ [] := by
          have := splitOn_ne_nil 47 rest
          cases hsp : rest.splitOn 47 with
          | nil => exact absurd hsp this
          | cons a l => simp
        rw [intercalate_cons_of_ne_nil _ _ _ hne]
        simp only [cutSlash, if_true, Nat.succ_ne_zero, if_false, Nat.succ_sub_one, ih m,
          firstElements]
        simp
    · unfold firstElements
      rw [splitOn_cons_of_ne 47 c rest hc]
      have hne : (rest.splitOn 47).take (n + 1) ≠ [] := by
        have := splitOn_ne_nil 47 rest
        cases hsp : rest.splitOn 47 with
        | nil => exact absurd hsp this
        | cons a l => simp
      have htk : ((rest.splitOn 47).modifyHead (List.cons c)).take (n + 1)
          = ((rest.splitOn 47).take (n + 1)).modifyHead (List.cons c) := by
        cases rest.splitOn 47 with
        | nil => simp
        | cons a l => simp
      rw [htk, intercalate_modifyHead_cons _ _ _ hne]
      simp only [cutSlash, hc, if_false, ih n, firstElements]

theorem stringsIndexFrom_not_mem (b : Nat) :
    ∀ (s : GoString) (k : Nat), b ∉ s → stringsIndexFrom [b] s k = -1 := by
  intro s
  induction s with
  | nil => intro k _; simp [stringsIndexFrom]
  | cons c s ih =>
    intro k h
    have hc : b ≠ c := fun e => h (by simp [e])
    have hs : b ∉ s := fun e => h (by simp [e])
    simp [stringsIndexFrom, List.isPrefixOf, hc, ih (k + 1) hs]

theorem stringsIndexFrom_first (b : Nat) (r : GoString) :
    ∀ (a : GoString) (k : Nat), b ∉ a →
      stringsIndexFrom [b] (a ++ b :: r) k = ((k + a.length : Nat) : Int) := by
  intro a
  induction a with
  | nil => intro k _; simp [stringsIndexFrom, List.isPrefixOf]
  | cons c a ih =>
    intro k h
    have hc : b ≠ c := fun e => h (by simp [e])
    have ha : b ∉ a := fun e => h (by simp [e])
    simp only [List.cons_append, stringsIndexFrom, List.isPrefixOf]
    simp only [beq_iff_eq, hc, false_and, Bool.and_eq_true, if_false]
    have e := ih (k + 1) ha
    simp only [List.length_cons]
    rw [show k + (a.length + 1) = k + 1 + a.length by omega]
    exact e

theorem exists_first_split (b : Nat) (s : GoString) (h : b ∈ s) :
    ∃ a r, s = a ++ b :: r ∧ b ∉ a := by
  induction s with
  | nil => simp at h
  | cons c s ih =>
    by_cases hc : c = b
    · exact ⟨[], s, by simp [hc], by simp⟩
    · have hs : b ∈ s := by
        rcases List.mem_cons.mp h with e | e
        · exact absurd e.symm hc
        · exact e
      obtain ⟨a, r, e, hn⟩ := ih hs
      refine ⟨c :: a, r, by simp [e], ?_⟩
      intro hm
      rcases List.mem_cons.mp hm with e2 | e2
      · exact hc e2.symm
      · exact hn e2

theorem splitOn_first (b : Nat) (a r : GoString) (h : b ∉ a) :
    (a ++ b :: r).splitOn b = a :: r.splitOn b := by
  unfold List.splitOn
  apply List.splitOnP_first
  · intro x hx
    simp only [beq_iff_eq]
    intro e
    exact h (e ▸ hx)
  · simp

theorem splitOn_not_mem (b : Nat) (s : GoString) (h : b ∉ s) : s.splitOn b = [s] := by
  unfold List.splitOn
  apply List.splitOnP_eq_single
  intro x hx
  simp only [beq_iff_eq]
  intro e
  exact h (e ▸ hx)

theorem GlobsMatchPathLoop_nil (fuel : Nat) (target : GoString) :
    GlobsMatchPathLoop fuel [] target = false := by
  cases fuel <;> simp [GlobsMatchPathLoop]

theorem GlobsMatchPathLoop_split (fuel : Nat) (a r target : GoString) (h : 44 ∉ a) :
    GlobsMatchPathLoop (fuel + 1) (a ++ 44 :: r) target
      = (globMatches target a || GlobsMatchPathLoop fuel r target) := by
  have hi : stringsIndex (a ++ 44 :: r) [44] = ((a.length : Nat) : Int) := by
    unfold stringsIndex
    rw [stringsIndexFrom_first 44 r a 0 h]
    simp
  have hne : a ++ 44 :: r ≠ [] := by simp
  rw [GlobsMatchPathLoop]
  simp only [hne, if_false, hi, Int.toNat_ofNat, Int.ofNat_zero_le, if_true,
    List.take_left', List.drop_left', stringsCountByte, truncateLoop_start,
    cutSlash_eq_firstElements]
  have hd : List.drop (a.length + 1) (a ++ 44 :: r) = r := by
    rw [List.drop_append_eq_append_drop]
    simp
  have ht : List.take a.length (a ++ 44 :: r) = a := by simp
  simp only [hd, ht, globMatches]
  by_cases ha : a = []
  · simp [ha]
  · by_cases hn : a.count 47 ≤ target.count 47
    · have : ¬ (0 < a.count 47 - target.count 47) := by omega
      simp only [ha, if_false, this, not_false_eq_true, decide_True, hn, Bool.true_and, ne_eq]
      cases (pathMatch a (firstElements (a.count 47 + 1) target)).1 <;> simp
    · have : 0 < a.count 47 - target.count 47 := by omega
      simp [ha, this, hn]

theorem GlobsMatchPathLoop_last (fuel : Nat) (s target : GoString) (h : 44 ∉ s) :
    GlobsMatchPathLoop (fuel + 1) s target = globMatches target s := by
  have hi : stringsIndex s [44] = -1 := stringsIndexFrom_not_mem 44 s 0 h
  rw [GlobsMatchPathLoop]
  by_cases hs : s = []
  · simp [hs, globMatches]
  · simp only [hs, if_false, hi, stringsCountByte, truncateLoop_start,
      cutSlash_eq_firstElements, GlobsMatchPathLoop_nil, globMatches]
    by_cases hn : s.count 47 ≤ target.count 47
    · have : ¬ (0 < s.count 47 - target.count 47) := by omega
      simp [hs, this, hn, GlobsMatchPathLoop_nil]
    · have : 0 < s.count 47 - target.count 47 := by omega
      simp [hs, this, hn, GlobsMatchPathLoop_nil]

theorem GlobsMatchPathLoop_iff (target : GoString) :
    ∀ (fuel : Nat) (globs : GoString), globs.length ≤ fuel →
      (GlobsMatchPathLoop fuel globs target = true ↔
        ∃ g ∈ entries globs, globMatches target g = true) := by
  intro fuel
  induction fuel with
  | zero =>
    intro globs h
    have : globs = [] := List.length_eq_zero.mp (Nat.le_zero.mp h)
    subst this
    simp [GlobsMatchPathLoop, entries, List.splitOn, globMatches]
  | succ fuel ih =>
    intro globs h
    by_cases hm : 44 ∈ globs
    · obtain ⟨a, r, rfl, ha⟩ := exists_first_split 44 globs hm
      have hr : r.length ≤ fuel := by
        simp only [List.length_append, List.length_cons] at h
        omega
      rw [GlobsMatchPathLoop_split fuel a r target ha]
      simp only [entries, splitOn_first 44 a r ha, List.mem_cons, Bool.or_eq_true,
        exists_eq_or_imp]
      rw [ih r hr]
      rfl
    · rw [GlobsMatchPathLoop_last fuel globs target hm]
      simp [entries, splitOn_not_mem 44 globs hm]

theorem GlobsMatchPath_iff_entries (globs target : GoString) :
    GlobsMatchPath globs target = true ↔
      ∃ g ∈ entries globs, g ≠ [] ∧ g.count 47 ≤ target.count 47 ∧
        (pathMatch g (firstElements (g.count 47 + 1) target)).1 = true := by
  unfold GlobsMatchPath
  rw [GlobsMatchPathLoop_iff target globs.length globs (Nat.le_refl _)]
  simp [globMatches, and_assoc]

/-- Every amount of fuel from `len(globs)` on gives the loop the same result. -/
theorem GlobsMatchPathLoop_fuel (fuel : Nat) (globs target : GoString)
    (h : globs.length ≤ fuel) :
    GlobsMatchPathLoop fuel globs target = GlobsMatchPath globs target := by
  have h1 := GlobsMatchPathLoop_iff target fuel globs h
  have h2 := GlobsMatchPathLoop_iff target globs.length globs (Nat.le_refl _)
  unfold GlobsMatchPath
  rw [Bool.eq_iff_iff, h1, h2]

theorem cutSlash_append_slash (s : GoString) :
    ∀ (t : GoString) (n : Nat), n ≤ t.count 47 →
      cutSlash n (t ++ 47 :: s) = cutSlash n t := by
  intro t
  induction t with
  | nil =>
    intro n h
    simp at h
    subst h
    simp [cutSlash]
  | cons c t ih =>
    intro n h
    by_cases hc : c = 47
    · subst hc
      by_cases hn : n = 0
      · subst hn
        simp [cutSlash]
      · have hm : n - 1 ≤ t.count 47 := by
          simp only [List.count_cons_self] at h
          omega
        simp [cutSlash, hn, ih (n - 1) hm]
    · have hm : n ≤ t.count 47 := by
        rwa [List.count_cons_of_ne (Ne.symm hc)] at h
      simp [cutSlash, hc, ih n hm]

/-- C1: `GlobsMatchPath(globs, target)` is true exactly when some non-empty entry `g` of the
comma-separated list, with `N` slashes, has `target` holding at least `N` slashes and
`path.Match(g, p)` matching, `p` being the first `N+1` elements of `target`; so
`GlobsMatchPath("a/b", "a/b/c")` is true, `GlobsMatchPath("a/b/c/d", "a/b")` is false and
`GlobsMatchPath("", t)` is false for every `t`. -/
theorem GlobsMatchPath_first_elements :
    (∀ globs target : GoString,
      GlobsMatchPath globs target = true ↔
        ∃ g ∈ entries globs, g ≠ [] ∧ g.count 47 ≤ target.count 47 ∧
          (pathMatch g (firstElements (g.count 47 + 1) target)).1 = true) ∧
    GlobsMatchPath (ascii "a/b") (ascii "a/b/c") = true ∧
    GlobsMatchPath (ascii "a/b/c/d") (ascii "a/b") = false ∧
    ∀ t : GoString, GlobsMatchPath (ascii "") t = false := by
  refine ⟨GlobsMatchPath_iff_entries, by decide, by decide, ?_⟩
  intro t
  rfl

/-- C2 fails on the code: the doc comment of `GlobsMatchPath` promises a match when any path
prefix of `target` matches a glob as defined by `path.Match`. The glob `a[^x]b` matches the
path prefix `a/b` of the target `a/b` (a character class may match a slash), yet the glob has
no slash, so only the first element `a` is tried and `GlobsMatchPath` returns false. -/
theorem GlobsMatchPath_misses_prefix :
    GlobsMatchPath (ascii "a[^x]b") (ascii "a/b") = false ∧
    IsPathPrefix (ascii "a/b") (ascii "a/b") ∧
    pathMatch (ascii "a[^x]b") (ascii "a/b") = (true, false) ∧
    pathMatch (ascii "a[^x]b") (ascii "a") = (false, false) ∧
    ¬ (GlobsMatchPath (ascii "a[^x]b") (ascii "a/b") = true ↔
        ∃ g ∈ entries (ascii "a[^x]b"), g ≠ [] ∧
          ∃ p, IsPathPrefix p (ascii "a/b") ∧ (pathMatch g p).1 = true) := by
  refine ⟨by decide, by decide, by decide, by decide, ?_⟩
  intro h
  have hf : GlobsMatchPath (ascii "a[^x]b") (ascii "a/b") = false := by decide
  rw [hf] at h
  have : ∃ g ∈ entries (ascii "a[^x]b"), g ≠ [] ∧
      ∃ p, IsPathPrefix p (ascii "a/b") ∧ (pathMatch g p).1 = true :=
    ⟨ascii "a[^x]b", by decide, by decide, ascii "a/b", by decide, by decide⟩
  exact Bool.false_ne_true (h.mpr this)

/-- C10: `GlobsMatchPath` is monotone under path extension: when `GlobsMatchPath(globs, t)`
is true, so is `GlobsMatchPath(globs, t + "/" + s)` for every `s`. -/
theorem GlobsMatchPath_extend (globs t s : GoString)
    (h : GlobsMatchPath globs t = true) :
    GlobsMatchPath globs (t ++ ascii "/" ++ s) = true := by
  rw [GlobsMatchPath_iff_entries] at h ⊢
  obtain ⟨g, hg, hne, hle, hm⟩ := h
  have e : t ++ ascii "/" ++ s = t ++ 47 :: s := by
    simp [ascii]
  rw [e]
  refine ⟨g, hg, hne, ?_, ?_⟩
  · simp only [List.count_append, List.count_cons_self]
    omega
  · rw [← cutSlash_eq_firstElements, cutSlash_append_slash s t _ hle,
      cutSlash_eq_firstElements]
    exact hm

/-- C10 at `globs = "a/b"`, `t = "a/b"`, `s = "c"`. -/
theorem GlobsMatchPath_extend_witness :
    GlobsMatchPath (ascii "a/b") (ascii "a/b") = true ∧
    GlobsMatchPath (ascii "a/b") (ascii "a/b" ++ ascii "/" ++ ascii "c") = true :=
  ⟨by decide, GlobsMatchPath_extend (ascii "a/b") (ascii "a/b") (ascii "c") (by decide)⟩

/-! ## The retry and failover machine -/

theorem RoundRobin_failedOver_lt (u : Upstream) (r : Request) (k : Nat)
    (h : k < u.Backends.length) :
    u.RoundRobin (failedOver r k) = .reverseProxyServeHTTP k (failedOver r k) := by
  have h1 : ¬ ((u.Backends.length : Int) ≤ (k : Int)) := by omega
  have h2 : ¬ ((k : Int) < 0) := by omega
  simp [Upstream.RoundRobin, GetBackendIndexFromContext, failedOver, h1, h2]

theorem RoundRobin_failedOver_ge (u : Upstream) (r : Request) (k : Nat)
    (h : u.Backends.length ≤ k) :
    u.RoundRobin (failedOver r k) = .nothing (failedOver r k) := by
  have h1 : (u.Backends.length : Int) ≤ (k : Int) := by omega
  simp [Upstream.RoundRobin, GetBackendIndexFromContext, failedOver, h1]

theorem ErrorHandler_failedOver (u : Upstream) (r : Request) (j k : Nat) :
    ErrorHandler u j (failedOver r k) = u.RoundRobin (failedOver r (k + 1)) := by
  simp [ErrorHandler, GetRetryTimesFromContext, GetBackendIndexFromContext, failedOver,
    RetryWithSameBackendTimes]

/-- The failover phase: from backend index `k` on, every remaining backend is tried once
and the request is dropped at index `len(Backends)`. -/
theorem serve_failover (u : Upstream) (r : Request) :
    ∀ (d k fuel : Nat) (done : List Attempt), k + d = u.Backends.length → d + 1 ≤ fuel →
      serve u allFail fuel (u.RoundRobin (failedOver r k)) done
        = some ⟨done ++ (List.range d).map (fun i => ⟨k + i, failedOver r (k + i)⟩),
            .nothing (failedOver r u.Backends.length)⟩ := by
  intro d
  induction d with
  | zero =>
    intro k fuel done hk hf
    obtain ⟨f, rfl⟩ := Nat.exists_eq_succ_of_ne_zero (by omega : fuel ≠ 0)
    have hk2 : k = u.Backends.length := by omega
    subst hk2
    rw [RoundRobin_failedOver_ge u r _ (Nat.le_refl _)]
    simp [serve]
  | succ d ih =>
    intro k fuel done hk hf
    obtain ⟨f, rfl⟩ := Nat.exists_eq_succ_of_ne_zero (by omega : fuel ≠ 0)
    rw [RoundRobin_failedOver_lt u r k (by omega)]
    simp only [serve, allFail, Bool.false_eq_true, if_false, ErrorHandler_failedOver]
    rw [ih (k + 1) f _ (by omega) (by omega)]
    simp only [List.range_succ_eq_map, List.map_cons, List.map_map, List.append_assoc,
      List.singleton_append, Nat.add_zero]
    congr 4
    apply List.map_congr_left
    intro i _
    simp only [Function.comp, Nat.succ_eq_add_one]
    rw [show k + 1 + i = k + (i + 1) by omega]

theorem ErrorHandler_first_failure (u : Upstream) (r : Request) (j : Nat)
    (hr : r.ctx = ⟨none, none⟩) :
    ErrorHandler u j r = .reverseProxyServeHTTP j { r with ctx := ⟨some 1, none⟩ } := by
  simp [ErrorHandler, GetRetryTimesFromContext, RetryWithSameBackendTimes, hr]

theorem ErrorHandler_second_failure (u : Upstream) (r : Request) (j : Nat) :
    ErrorHandler u j { r with ctx := ⟨some 1, none⟩ } = u.RoundRobin (failedOver r 1) := by
  simp [ErrorHandler, GetRetryTimesFromContext, GetBackendIndexFromContext, failedOver,
    RetryWithSameBackendTimes]

/-- The whole run against backends that always fail. -/
theorem serve_allFail (u : Upstream) (r : Request) (fuel : Nat)
    (hn : 1 ≤ u.Backends.length) (hr : r.ctx = ⟨none, none⟩)
    (hf : u.Backends.length + 2 ≤ fuel) :
    serve u allFail fuel (u.ServeHTTP r) []
      = some ⟨⟨0, r⟩ :: ⟨0, { r with ctx := ⟨some 1, none⟩ }⟩ ::
                (List.range (u.Backends.length - 1)).map
                  (fun i => ⟨1 + i, failedOver r (1 + i)⟩),
              .nothing (failedOver r u.Backends.length)⟩ := by
  obtain ⟨f, rfl⟩ : ∃ f, fuel = f + 2 := ⟨fuel - 2, by omega⟩
  have h0 : u.Backends.length ≠ 0 := by omega
  simp only [Upstream.ServeHTTP, h0, if_false, serve, allFail, Bool.false_eq_true,
    ErrorHandler_first_failure u r 0 hr, ErrorHandler_second_failure, List.nil_append,
    List.length_nil]
  rw [serve_failover u r (u.Backends.length - 1) 1 f _ (by omega) (by omega)]
  simp

theorem zero_cons_range_chain (n : Nat) :
    List.Chain' (fun a b : Nat => b = a ∨ b = a + 1) (0 :: List.range n) := by
  cases n with
  | zero => simp
  | succ m =>
    rw [List.range_succ_eq_map]
    refine List.Chain'.cons (Or.inl rfl) ?_
    rw [← List.range_succ_eq_map, List.chain'_range_succ]
    intro k _
    exact Or.inr rfl

theorem zero_cons_range_count (n j : Nat) : (0 :: List.range n).count j ≤ 2 := by
  have h := List.nodup_iff_count_le_one.mp (List.nodup_range n) j
  rw [List.count_cons]
  split <;> omega

/-- C9: against `n ≥ 1` backends that always fail, the run started by `Upstream.ServeHTTP`
ends (any fuel from `n + 2` on gives its result): the backend index starts at 0, moves only
by steps of 0 or 1, each backend is attempted at most `1 + RetryWithSameBackendTimes = 2`
times, and after `n + 1` attempts the index is `n`, where `RoundRobin` returns with nothing
forwarded and no response written. -/
theorem failover_terminates (u : Upstream) (r : Request) (fuel : Nat)
    (hn : 1 ≤ u.Backends.length) (hr : r.ctx = ⟨none, none⟩)
    (hf : u.Backends.length + 2 ≤ fuel) :
    ∃ s, serve u allFail fuel (u.ServeHTTP r) [] = some s ∧
      s.attempts.map (fun a => GetBackendIndexFromContext a.r)
        = (0 :: List.range u.Backends.length).map Int.ofNat ∧
      s.attempts.map (fun a => a.backend) = 0 :: List.range u.Backends.length ∧
      List.Chain' (fun a b : Nat => b = a ∨ b = a + 1) (s.attempts.map (fun a => a.backend)) ∧
      (∀ j, (((s.attempts.map (fun a => a.backend)).count j : Nat) : Int)
        ≤ 1 + RetryWithSameBackendTimes) ∧
      s.attempts.length = u.Backends.length + 1 ∧
      ∃ r1, s.final = .nothing r1 ∧
        GetBackendIndexFromContext r1 = (u.Backends.length : Int) ∧
        u.RoundRobin r1 = .nothing r1 := by
  refine ⟨_, serve_allFail u r fuel hn hr hf, ?_⟩
  obtain ⟨m, hm⟩ : ∃ m, u.Backends.length = m + 1 := ⟨u.Backends.length - 1, by omega⟩
  have hb : List.map (fun a : Attempt => a.backend)
      (⟨0, r⟩ :: ⟨0, { r with ctx := ⟨some 1, none⟩ }⟩ ::
        (List.range (u.Backends.length - 1)).map (fun i => ⟨1 + i, failedOver r (1 + i)⟩))
      = 0 :: List.range u.Backends.length := by
    rw [hm]
    simp only [List.map_cons, List.map_map, Nat.add_sub_cancel, List.range_succ_eq_map m]
    congr 2
    apply List.map_congr_left
    intro i _
    simp [Function.comp, Nat.add_comm]
  have hi : List.map (fun a : Attempt => GetBackendIndexFromContext a.r)
      (⟨0, r⟩ :: ⟨0, { r with ctx := ⟨some 1, none⟩ }⟩ ::
        (List.range (u.Backends.length - 1)).map (fun i => ⟨1 + i, failedOver r (1 + i)⟩))
      = (0 :: List.range u.Backends.length).map Int.ofNat := by
    rw [hm]
    simp only [List.map_cons, List.map_map, Nat.add_sub_cancel, List.range_succ_eq_map m,
      GetBackendIndexFromContext, hr]
    congr 2
    apply List.map_congr_left
    intro i _
    simp [Function.comp, failedOver, Nat.add_comm]
  refine ⟨hi, hb, ?_, ?_, ?_, ?_⟩
  · rw [hb]
    exact zero_cons_range_chain _
  · intro j
    rw [hb]
    have := zero_cons_range_count u.Backends.length j
    simp only [RetryWithSameBackendTimes]
    omega
  · simp
    omega
  · exact ⟨_, rfl, by simp [GetBackendIndexFromContext, failedOver],
      RoundRobin_failedOver_ge u r _ (Nat.le_refl _)⟩

/-- C9 at two backends and fuel 4. -/
theorem failover_terminates_witness :
    ∃ s, serve ⟨[⟨ascii "a"⟩, ⟨ascii "b"⟩]⟩ allFail 4
        (Upstream.ServeHTTP ⟨[⟨ascii "a"⟩, ⟨ascii "b"⟩]⟩ ⟨ascii "/m/@v/list", ⟨none, none⟩⟩) []
          = some s ∧
      s.attempts.map (fun a => GetBackendIndexFromContext a.r)
        = (0 :: List.range 2).map Int.ofNat ∧
      s.attempts.map (fun a => a.backend) = 0 :: List.range 2 ∧
      List.Chain' (fun a b : Nat => b = a ∨ b = a + 1) (s.attempts.map (fun a => a.backend)) ∧
      (∀ j, (((s.attempts.map (fun a => a.backend)).count j : Nat) : Int)
        ≤ 1 + RetryWithSameBackendTimes) ∧
      s.attempts.length = 2 + 1 ∧
      ∃ r1, s.final = .nothing r1 ∧
        GetBackendIndexFromContext r1 = ((2 : Nat) : Int) ∧
        Upstream.RoundRobin ⟨[⟨ascii "a"⟩, ⟨ascii "b"⟩]⟩ r1 = .nothing r1 :=
  failover_terminates ⟨[⟨ascii "a"⟩, ⟨ascii "b"⟩]⟩ ⟨ascii "/m/@v/list", ⟨none, none⟩⟩ 4
    (by decide) rfl (by decide)

/-- Once the retry budget of a backend is used up, the error handler hands the request to
`RoundRobin` with the backend index raised by one and the retry count as it was. -/
theorem ErrorHandler_budget_used (u : Upstream) (j : Nat) (r : Request)
    (h : RetryWithSameBackendTimes ≤ GetRetryTimesFromContext r) :
    ErrorHandler u j r
      = u.RoundRobin { r with ctx :=
          { retryTimes := r.ctx.retryTimes,
            backendIndex := some (GetBackendIndexFromContext r + 1) } } := by
  have h1 : ¬ GetRetryTimesFromContext r < RetryWithSameBackendTimes := by omega
  simp [ErrorHandler, h1]

/-- C3 fails on the code: the error handler of backend 0, run for a request that was
already retried once there, sends the request on to backend index 1 with the retry count
still 1, not 0; so when the second backend fails only its first round trip, it gets no retry
and the request is dropped after the attempts 0, 0, 1. -/
theorem ErrorHandler_failover_keeps_retries :
    ErrorHandler ⟨[⟨ascii "a"⟩, ⟨ascii "b"⟩]⟩ 0 ⟨ascii "/m/@v/list", ⟨some 1, none⟩⟩
      = .reverseProxyServeHTTP 1 ⟨ascii "/m/@v/list", ⟨some 1, some 1⟩⟩ ∧
    GetRetryTimesFromContext ⟨ascii "/m/@v/list", ⟨some 1, some 1⟩⟩ = 1 ∧
    serve ⟨[⟨ascii "a"⟩, ⟨ascii "b"⟩]⟩ (fun backend k => decide (backend = 1 ∧ 3 ≤ k)) 9
        (Upstream.ServeHTTP ⟨[⟨ascii "a"⟩, ⟨ascii "b"⟩]⟩ ⟨ascii "/m/@v/list", ⟨none, none⟩⟩) []
      = some ⟨[⟨0, ⟨ascii "/m/@v/list", ⟨none, none⟩⟩⟩,
               ⟨0, ⟨ascii "/m/@v/list", ⟨some 1, none⟩⟩⟩,
               ⟨1, ⟨ascii "/m/@v/list", ⟨some 1, some 1⟩⟩⟩],
              .nothing ⟨ascii "/m/@v/list", ⟨some 1, some 2⟩⟩⟩ := by
  refine ⟨by decide, by decide, by decide⟩

/-! ## The router -/

/-- C4 fails on the code: `NewRouter` returns early for an empty `Proxies` list and leaves
`proxyUpstream` nil, so `ServeHTTP` panics on `rt.proxyUpstream.Backends` for a request
outside `/sumdb/` instead of handing it to the local server. -/
theorem ServeHTTP_no_proxies_panics (env : Env) (srv : Server) (pattern root : GoString)
    (ctx : Context) :
    (NewRouter srv (some ⟨pattern, [], root⟩)).proxyUpstream = none ∧
    stringsHasPrefix (ascii "/github.com/a/b/@v/list") (ascii "/sumdb/") = false ∧
    Router.ServeHTTP env (NewRouter srv (some ⟨pattern, [], root⟩))
      ⟨ascii "/github.com/a/b/@v/list", ctx⟩ = .panic := by
  refine ⟨rfl, by decide, ?_⟩
  have h : stringsHasPrefix (ascii "/github.com/a/b/@v/list") (ascii "/sumdb/") = false := by
    decide
  simp [Router.ServeHTTP, NewRouter, h]

theorem Upstream_ServeHTTP_first (u : Upstream) (r : Request) (h : u.Backends ≠ []) :
    u.ServeHTTP r = .reverseProxyServeHTTP 0 r := by
  have : u.Backends.length ≠ 0 := fun e => h (List.length_eq_zero.mp e)
  simp [Upstream.ServeHTTP, this]

/-- C5, as stated, fails: a "latest" cache file that exists and is one nanosecond old, but
cannot be opened, is not served; the request goes to the first backend. -/
theorem ServeHTTP_listing_counterexample :
    stringsHasPrefix (ascii "/m/@latest") (ascii "/sumdb/") = false ∧
    exampleRouter.proxyUpstream = some ⟨[⟨ascii "https://goproxy.io"⟩]⟩ ∧
    exampleRouter.Direct (stringsTrimPrefix (ascii "/m/@latest") (ascii "/")) = false ∧
    stringsHasSuffix (ascii "/m/@latest") (ascii "/@latest") = true ∧
    (exampleEnv 1 true false).osStat
      ((exampleEnv 1 true false).filepathJoin exampleRouter.downloadRoot (ascii "/m/@latest"))
        = some ⟨0⟩ ∧
    (exampleEnv 1 true false).timeSince 0 < ListExpire ∧
    Router.ServeHTTP (exampleEnv 1 true false) exampleRouter ⟨ascii "/m/@latest", ⟨none, none⟩⟩
      = .reverseProxyServeHTTP 0 ⟨ascii "/m/@latest", ⟨none, none⟩⟩ := by
  refine ⟨by decide, by decide, by decide, by decide, by decide, by decide, by decide⟩

/-- C5, amended: for a request outside `/sumdb/`, not direct, with at least one backend,
for a "latest" or "list" query whose cache file exists: when the file is 5 minutes old or
older (boundary included) the request goes to the first backend and the file is not served;
when it is younger and can be opened, the file is served with Content-Type
`text/plain; charset=UTF-8` and no upstream is contacted. -/
theorem ServeHTTP_listing (env : Env) (rt : Router) (u : Upstream) (r : Request)
    (info : FileInfo)
    (hs : stringsHasPrefix r.path (ascii "/sumdb/") = false)
    (hu : rt.proxyUpstream = some u) (hb : u.Backends ≠ [])
    (hd : rt.Direct (stringsTrimPrefix r.path (ascii "/")) = false)
    (hq : isListing r.path)
    (hst : env.osStat (env.filepathJoin rt.downloadRoot r.path) = some info) :
    (ListExpire ≤ env.timeSince info.modTime →
      Router.ServeHTTP env rt r = .reverseProxyServeHTTP 0 r) ∧
    (∀ f, env.osOpen (env.filepathJoin rt.downloadRoot r.path) = some f →
      env.timeSince info.modTime < ListExpire →
      Router.ServeHTTP env rt r
        = .serveContent (ascii "text/plain; charset=UTF-8") info.modTime f) := by
  have hlen : u.Backends.length ≠ 0 := fun e => hb (List.length_eq_zero.mp e)
  have hserve := Upstream_ServeHTTP_first u r hb
  constructor
  · intro hage
    cases hop : env.osOpen (env.filepathJoin rt.downloadRoot r.path) with
    | none => simp [Router.ServeHTTP, hs, hu, hlen, hd, hst, hop, hserve]
    | some f =>
      by_cases hl : stringsHasSuffix r.path (ascii "/@latest") = true
      · simp [Router.ServeHTTP, hs, hu, hlen, hd, hst, hop, hserve, hl, hage]
      · rcases hq with hq | ⟨hi, hw⟩
        · exact absurd hq hl
        · have hi2 : ¬ stringsIndex r.path (ascii "/@v/") < 0 := by omega
          have hw2 : List.drop ((stringsIndex r.path (ascii "/@v/")).toNat
              + (ascii "/@v/").length) r.path = ascii "list" := hw
          simp [Router.ServeHTTP, hs, hu, hlen, hd, hst, hop, hserve, hl, hage, hi2, hw2]
  · intro f hop hage
    have hage2 : ¬ ListExpire ≤ env.timeSince info.modTime := by omega
    by_cases hl : stringsHasSuffix r.path (ascii "/@latest") = true
    · simp [Router.ServeHTTP, hs, hu, hlen, hd, hst, hop, hl, hage2]
    · rcases hq with hq | ⟨hi, hw⟩
      · exact absurd hq hl
      · have hi2 : ¬ stringsIndex r.path (ascii "/@v/") < 0 := by omega
        have hw2 : List.drop ((stringsIndex r.path (ascii "/@v/")).toNat
            + (ascii "/@v/").length) r.path = ascii "list" := hw
        simp [Router.ServeHTTP, hs, hu, hlen, hd, hst, hop, hl, hage2, hi2, hw2]

theorem stringsIndexFrom_split (sub : GoString) :
    ∀ (s : GoString) (k : Nat), 0 ≤ stringsIndexFrom sub s k →
      ∃ a b, s = a ++ sub ++ b ∧ stringsIndexFrom sub s k = ((k + a.length : Nat) : Int) := by
  intro s
  induction s with
  | nil =>
    intro k h
    by_cases hsub : sub = []
    · exact ⟨[], [], by simp [hsub], by simp [stringsIndexFrom, hsub]⟩
    · simp [stringsIndexFrom, hsub] at h
  | cons c s ih =>
    intro k h
    by_cases hp : sub.isPrefixOf (c :: s) = true
    · obtain ⟨b, hb⟩ := List.isPrefixOf_iff_prefix.mp hp
      exact ⟨[], b, by simp [hb], by simp [stringsIndexFrom, hp]⟩
    · have e : stringsIndexFrom sub (c :: s) k = stringsIndexFrom sub s (k + 1) := by
        simp [stringsIndexFrom, hp]
      rw [e] at h
      obtain ⟨a, b, h1, h2⟩ := ih (k + 1) h
      refine ⟨c :: a, b, by simp [h1], ?_⟩
      rw [e, h2]
      simp only [List.length_cons]
      congr 1
      omega

theorem afterV_split (path : GoString) (h : 0 ≤ stringsIndex path (ascii "/@v/")) :
    ∃ a, path = a ++ ascii "/@v/" ++ afterV path := by
  obtain ⟨a, b, h1, h2⟩ := stringsIndexFrom_split (ascii "/@v/") path 0 h
  refine ⟨a, ?_⟩
  have e : afterV path = b := by
    unfold afterV stringsIndex
    rw [h2]
    conv_lhs => rw [h1]
    have : (ascii "/@v/").length = 4 := by decide
    simp only [Nat.zero_add, Int.toNat_ofNat, List.append_assoc]
    rw [List.drop_append_eq_append_drop]
    simp [List.drop_append_eq_append_drop, this]
  rw [e]
  exact h1

/-- No overlap: when the last byte of `m` does not occur in `sfx`, a string that holds `m`
and ends in `sfx` has `sfx` at the end of what follows `m`. -/
theorem suffix_after (a m b sfx : GoString) (hm : m.getLast? = some 47) (hs : 47 ∉ sfx)
    (h : sfx <:+ a ++ m ++ b) : sfx <:+ b := by
  obtain ⟨c, hc⟩ := h
  rcases List.append_eq_append_iff.mp hc with ⟨x, h1, h2⟩ | ⟨x, h1, h2⟩
  · by_cases hx : x = []
    · subst hx
      simp only [List.nil_append] at h2
      exact ⟨[], by simp [h2]⟩
    · exfalso
      have hl : (a ++ m).getLast? = some 47 := by
        rw [List.getLast?_append, hm]
        rfl
      rw [h1] at hl
      obtain ⟨y, hy⟩ : ∃ y, x.getLast? = some y := by
        cases hx2 : x.getLast? with
        | none => exact absurd (List.getLast?_eq_none_iff.mp hx2) hx
        | some y => exact ⟨y, rfl⟩
      rw [List.getLast?_append, hy] at hl
      simp only [Option.or_some] at hl
      have : (47 : Nat) ∈ x := by
        have := List.mem_of_getLast?_eq_some hy
        simp only [Option.some.injEq] at hl
        rwa [hl] at this
      exact hs (h2 ▸ List.mem_append_left _ this)
  · exact ⟨x, h2.symm⟩

theorem pathExtLoop_dot (rest : GoString) :
    ∀ (t acc : GoString), (∀ c ∈ t, c ≠ 46 ∧ c ≠ 47) →
      pathExtLoop (t ++ 46 :: rest) acc = 46 :: (t.reverse ++ acc) := by
  intro t
  induction t with
  | nil => intro acc _; simp [pathExtLoop]
  | cons c t ih =>
    intro acc h
    have hc := h c (by simp)
    have ht : ∀ c ∈ t, c ≠ 46 ∧ c ≠ 47 := fun x hx => h x (by simp [hx])
    simp [pathExtLoop, hc.1, hc.2, ih (c :: acc) ht]

/-- Go `path.Ext` of a string ending in a dot and an extension without dot or slash. -/
theorem pathExt_suffix (d e : GoString) (he : ∀ c ∈ e, c ≠ 46 ∧ c ≠ 47) :
    pathExt (d ++ 46 :: e) = 46 :: e := by
  unfold pathExt
  have : (d ++ 46 :: e).reverse = e.reverse ++ 46 :: d.reverse := by simp
  rw [this, pathExtLoop_dot d.reverse e.reverse [] (by
    intro c hc
    exact he c (List.mem_reverse.mp hc))]
  simp

theorem getLast_of_suffix (s sfx : GoString) (y : Nat) (hy : sfx.getLast? = some y)
    (h : sfx <:+ s) : s.getLast? = some y := by
  obtain ⟨c, rfl⟩ := h
  rw [List.getLast?_append, hy]
  rfl

/-- The cache branch of `ServeHTTP` for a path under `/@v/` that is neither a "latest" nor
a "list" query. -/
theorem ServeHTTP_cached_version (env : Env) (rt : Router) (u : Upstream) (r : Request)
    (info : FileInfo) (f : GoString)
    (hs : stringsHasPrefix r.path (ascii "/sumdb/") = false)
    (hu : rt.proxyUpstream = some u) (hb : u.Backends ≠ [])
    (hd : rt.Direct (stringsTrimPrefix r.path (ascii "/")) = false)
    (hl : stringsHasSuffix r.path (ascii "/@latest") = false)
    (hv : 0 ≤ stringsIndex r.path (ascii "/@v/"))
    (hw : afterV r.path ≠ ascii "list")
    (hst : env.osStat (env.filepathJoin rt.downloadRoot r.path) = some info)
    (hop : env.osOpen (env.filepathJoin rt.downloadRoot r.path) = some f) :
    Router.ServeHTTP env rt r =
      match ctypeOfExt (pathExt (afterV r.path)) with
      | some ctype => .serveContent ctype info.modTime f
      | none => .httpError (ascii "request not recognized") 404 := by
  have hlen : u.Backends.length ≠ 0 := fun e => hb (List.length_eq_zero.mp e)
  have hi2 : ¬ stringsIndex r.path (ascii "/@v/") < 0 := by omega
  have hw2 : ¬ List.drop ((stringsIndex r.path (ascii "/@v/")).toNat
      + (ascii "/@v/").length) r.path = ascii "list" := hw
  have hw3 : pathExt (List.drop ((stringsIndex r.path (ascii "/@v/")).toNat
      + (ascii "/@v/").length) r.path) = pathExt (afterV r.path) := rfl
  simp only [Router.ServeHTTP, hs, hu, hlen, hd, hst, hop, hl, hi2, hw2, hw3, ctypeOfExt,
    Bool.false_eq_true, if_false, or_self]
  split_ifs <;> rfl

/-- A path that holds `/@v/` and ends in a dot and an extension `e` (no dot, no slash, not
ending in `t`): it is no "latest" and no "list" query, and `path.Ext(what)` is the
extension. -/
theorem version_suffix (path e : GoString) (y : Nat)
    (hv : 0 ≤ stringsIndex path (ascii "/@v/"))
    (hsfx : stringsHasSuffix path (46 :: e) = true)
    (he : ∀ c ∈ e, c ≠ 46 ∧ c ≠ 47) (hy : (46 :: e).getLast? = some y) (hyt : y ≠ 116) :
    stringsHasSuffix path (ascii "/@latest") = false ∧
    afterV path ≠ ascii "list" ∧
    pathExt (afterV path) = 46 :: e := by
  have hsuf : (46 :: e) <:+ path := List.isSuffixOf_iff_suffix.mp hsfx
  obtain ⟨a, ha⟩ := afterV_split path hv
  have h47 : (47 : Nat) ∉ 46 :: e := by
    intro hm
    rcases List.mem_cons.mp hm with h | h
    · exact absurd h (by decide)
    · exact (he 47 h).2 rfl
  have hw : (46 :: e) <:+ afterV path :=
    suffix_after a (ascii "/@v/") (afterV path) (46 :: e) (by decide) h47 (ha ▸ hsuf)
  refine ⟨?_, ?_, ?_⟩
  · cases hl : stringsHasSuffix path (ascii "/@latest") with
    | false => rfl
    | true =>
      exfalso
      have h1 := getLast_of_suffix path (ascii "/@latest") 116 (by decide)
        (List.isSuffixOf_iff_suffix.mp hl)
      have h2 := getLast_of_suffix path (46 :: e) y hy hsuf
      rw [h1] at h2
      exact hyt (Option.some.inj h2).symm
  · intro hlist
    have h2 := getLast_of_suffix (afterV path) (46 :: e) y hy hw
    rw [hlist] at h2
    have h1 : (ascii "list").getLast? = some 116 := by decide
    rw [h1] at h2
    exact hyt (Option.some.inj h2).symm
  · obtain ⟨d, hd⟩ := hw
    rw [← hd]
    exact pathExt_suffix d e he

/-- C6: for a request outside `/sumdb/`, not direct, with at least one backend, whose path
holds `/@v/` and ends in `.info`, `.mod` or `.zip`, and whose cache file exists and can be
opened: whatever the age of the file, it is served (no upstream is contacted), with
Content-Type `application/json` for `.info`, `text/plain; charset=UTF-8` for `.mod` and
`application/octet-stream` for `.zip`. -/
theorem ServeHTTP_artifact_cached (env : Env) (rt : Router) (u : Upstream) (r : Request)
    (info : FileInfo) (f : GoString)
    (hs : stringsHasPrefix r.path (ascii "/sumdb/") = false)
    (hu : rt.proxyUpstream = some u) (hb : u.Backends ≠ [])
    (hd : rt.Direct (stringsTrimPrefix r.path (ascii "/")) = false)
    (hv : stringsContains r.path (ascii "/@v/") = true)
    (hst : env.osStat (env.filepathJoin rt.downloadRoot r.path) = some info)
    (hop : env.osOpen (env.filepathJoin rt.downloadRoot r.path) = some f) :
    (stringsHasSuffix r.path (ascii ".info") = true →
      Router.ServeHTTP env rt r
        = .serveContent (ascii "application/json") info.modTime f) ∧
    (stringsHasSuffix r.path (ascii ".mod") = true →
      Router.ServeHTTP env rt r
        = .serveContent (ascii "text/plain; charset=UTF-8") info.modTime f) ∧
    (stringsHasSuffix r.path (ascii ".zip") = true →
      Router.ServeHTTP env rt r
        = .serveContent (ascii "application/octet-stream") info.modTime f) := by
  have hv2 : 0 ≤ stringsIndex r.path (ascii "/@v/") := by
    simpa [stringsContains] using hv
  refine ⟨?_, ?_, ?_⟩
  · intro hsfx
    obtain ⟨h1, h2, h3⟩ := version_suffix r.path (ascii "info") 111 hv2 hsfx
      (by decide) (by decide) (by decide)
    rw [ServeHTTP_cached_version env rt u r info f hs hu hb hd h1 hv2 h2 hst hop, h3]
    rfl
  · intro hsfx
    obtain ⟨h1, h2, h3⟩ := version_suffix r.path (ascii "mod") 100 hv2 hsfx
      (by decide) (by decide) (by decide)
    rw [ServeHTTP_cached_version env rt u r info f hs hu hb hd h1 hv2 h2 hst hop, h3]
    rfl
  · intro hsfx
    obtain ⟨h1, h2, h3⟩ := version_suffix r.path (ascii "zip") 112 hv2 hsfx
      (by decide) (by decide) (by decide)
    rw [ServeHTTP_cached_version env rt u r info f hs hu hb hd h1 hv2 h2 hst hop, h3]
    rfl

/-- C5 at a "latest" query whose cache file is 6 minutes old, then 1 nanosecond old. -/
theorem ServeHTTP_listing_witness :
    Router.ServeHTTP (exampleEnv 360000000000 true true) exampleRouter
        ⟨ascii "/m/@latest", ⟨none, none⟩⟩
      = .reverseProxyServeHTTP 0 ⟨ascii "/m/@latest", ⟨none, none⟩⟩ ∧
    Router.ServeHTTP (exampleEnv 1 true true) exampleRouter ⟨ascii "/m/@latest", ⟨none, none⟩⟩
      = .serveContent (ascii "text/plain; charset=UTF-8") 0 (ascii "data") :=
  ⟨(ServeHTTP_listing (exampleEnv 360000000000 true true) exampleRouter
      ⟨[⟨ascii "https://goproxy.io"⟩]⟩ ⟨ascii "/m/@latest", ⟨none, none⟩⟩ ⟨0⟩
      (by decide) (by decide) (by decide) (by decide) (Or.inl (by decide)) (by decide)).1
      (by decide),
   (ServeHTTP_listing (exampleEnv 1 true true) exampleRouter
      ⟨[⟨ascii "https://goproxy.io"⟩]⟩ ⟨ascii "/m/@latest", ⟨none, none⟩⟩ ⟨0⟩
      (by decide) (by decide) (by decide) (by decide) (Or.inl (by decide)) (by decide)).2
      (ascii "data") (by decide) (by decide)⟩

/-- C6 at `/m/@v/v1.0.0.zip` with a cache file that is 6 minutes old. -/
theorem ServeHTTP_artifact_cached_witness :
    Router.ServeHTTP (exampleEnv 360000000000 true true) exampleRouter
        ⟨ascii "/m/@v/v1.0.0.zip", ⟨none, none⟩⟩
      = .serveContent (ascii "application/octet-stream") 0 (ascii "data") :=
  (ServeHTTP_artifact_cached (exampleEnv 360000000000 true true) exampleRouter
      ⟨[⟨ascii "https://goproxy.io"⟩]⟩ ⟨ascii "/m/@v/v1.0.0.zip", ⟨none, none⟩⟩ ⟨0⟩
      (ascii "data") (by decide) (by decide) (by decide) (by decide) (by decide) (by decide)
      (by decide)).2.2 (by decide)

/-- C7, as stated, fails: for `/m/@v/foo` (not under `/sumdb/`, not direct, under `/@v/`,
neither `list` nor a known extension) with no cache file, the request goes to the first
backend and no 404 is written; for `/m/@v/x/@latest` with a fresh cache file the file is
served; and on a router built without proxies the handler panics. -/
theorem ServeHTTP_unrecognized_counterexample :
    (stringsHasPrefix (ascii "/m/@v/foo") (ascii "/sumdb/") = false ∧
      exampleRouter.Direct (stringsTrimPrefix (ascii "/m/@v/foo") (ascii "/")) = false ∧
      stringsContains (ascii "/m/@v/foo") (ascii "/@v/") = true ∧
      afterV (ascii "/m/@v/foo") ≠ ascii "list" ∧
      ctypeOfExt (pathExt (afterV (ascii "/m/@v/foo"))) = none ∧
      Router.ServeHTTP (exampleEnv 1 false false) exampleRouter
          ⟨ascii "/m/@v/foo", ⟨none, none⟩⟩
        = .reverseProxyServeHTTP 0 ⟨ascii "/m/@v/foo", ⟨none, none⟩⟩) ∧
    (stringsHasPrefix (ascii "/m/@v/x/@latest") (ascii "/sumdb/") = false ∧
      exampleRouter.Direct (stringsTrimPrefix (ascii "/m/@v/x/@latest") (ascii "/")) = false ∧
      stringsContains (ascii "/m/@v/x/@latest") (ascii "/@v/") = true ∧
      afterV (ascii "/m/@v/x/@latest") ≠ ascii "list" ∧
      ctypeOfExt (pathExt (afterV (ascii "/m/@v/x/@latest"))) = none ∧
      Router.ServeHTTP (exampleEnv 1 true true) exampleRouter
          ⟨ascii "/m/@v/x/@latest", ⟨none, none⟩⟩
        = .serveContent (ascii "text/plain; charset=UTF-8") 0 (ascii "data")) ∧
    ((NewRouter ⟨0⟩ (some ⟨[], [], ascii "/cache"⟩)).Direct
        (stringsTrimPrefix (ascii "/m/@v/foo") (ascii "/")) = false ∧
      Router.ServeHTTP (exampleEnv 1 true true) (NewRouter ⟨0⟩ (some ⟨[], [], ascii "/cache"⟩))
          ⟨ascii "/m/@v/foo", ⟨none, none⟩⟩
        = .panic) := by
  refine ⟨⟨by decide, by decide, by decide, by decide, by decide, by decide⟩,
    ⟨by decide, by decide, by decide, by decide, by decide, by decide⟩,
    ⟨by decide, by decide⟩⟩

/-- C7, amended: for a request outside `/sumdb/`, not direct, with at least one backend,
whose path holds `/@v/` and does not end in `/@latest`, and whose part after `/@v/` is
neither `list` nor has the extension `.info`, `.mod` or `.zip`: when the cache file exists
and can be opened the router answers 404 (`request not recognized`); when it does not
exist or cannot be opened the request goes to the first backend. -/
theorem ServeHTTP_unrecognized (env : Env) (rt : Router) (u : Upstream) (r : Request)
    (hs : stringsHasPrefix r.path (ascii "/sumdb/") = false)
    (hu : rt.proxyUpstream = some u) (hb : u.Backends ≠ [])
    (hd : rt.Direct (stringsTrimPrefix r.path (ascii "/")) = false)
    (hl : stringsHasSuffix r.path (ascii "/@latest") = false)
    (hv : stringsContains r.path (ascii "/@v/") = true)
    (hw : afterV r.path ≠ ascii "list")
    (hx : pathExt (afterV r.path) ≠ ascii ".info" ∧ pathExt (afterV r.path) ≠ ascii ".mod" ∧
      pathExt (afterV r.path) ≠ ascii ".zip") :
    (∀ info f, env.osStat (env.filepathJoin rt.downloadRoot r.path) = some info →
      env.osOpen (env.filepathJoin rt.downloadRoot r.path) = some f →
      Router.ServeHTTP env rt r = .httpError (ascii "request not recognized") 404) ∧
    ((env.osStat (env.filepathJoin rt.downloadRoot r.path) = none ∨
        env.osOpen (env.filepathJoin rt.downloadRoot r.path) = none) →
      Router.ServeHTTP env rt r = .reverseProxyServeHTTP 0 r) := by
  have hv2 : 0 ≤ stringsIndex r.path (ascii "/@v/") := by
    simpa [stringsContains] using hv
  have hlen : u.Backends.length ≠ 0 := fun e => hb (List.length_eq_zero.mp e)
  constructor
  · intro info f hst hop
    rw [ServeHTTP_cached_version env rt u r info f hs hu hb hd hl hv2 hw hst hop]
    simp [ctypeOfExt, hx.1, hx.2.1, hx.2.2]
  · intro h
    have hserve := Upstream_ServeHTTP_first u r hb
    rcases h with h | h
    · simp [Router.ServeHTTP, hs, hu, hlen, hd, h, hserve]
    · cases hst : env.osStat (env.filepathJoin rt.downloadRoot r.path) with
      | none => simp [Router.ServeHTTP, hs, hu, hlen, hd, hst, hserve]
      | some info => simp [Router.ServeHTTP, hs, hu, hlen, hd, hst, h, hserve]

/-- C7 (amended) at `/m/@v/foo`, with a cache file and without one. -/
theorem ServeHTTP_unrecognized_witness :
    Router.ServeHTTP (exampleEnv 1 true true) exampleRouter ⟨ascii "/m/@v/foo", ⟨none, none⟩⟩
      = .httpError (ascii "request not recognized") 404 ∧
    Router.ServeHTTP (exampleEnv 1 false false) exampleRouter ⟨ascii "/m/@v/foo", ⟨none, none⟩⟩
      = .reverseProxyServeHTTP 0 ⟨ascii "/m/@v/foo", ⟨none, none⟩⟩ :=
  ⟨(ServeHTTP_unrecognized (exampleEnv 1 true true) exampleRouter
      ⟨[⟨ascii "https://goproxy.io"⟩]⟩ ⟨ascii "/m/@v/foo", ⟨none, none⟩⟩
      (by decide) (by decide) (by decide) (by decide) (by decide) (by decide) (by decide)
      (by decide)).1 ⟨0⟩ (ascii "data") (by decide) (by decide),
   (ServeHTTP_unrecognized (exampleEnv 1 false false) exampleRouter
      ⟨[⟨ascii "https://goproxy.io"⟩]⟩ ⟨ascii "/m/@v/foo", ⟨none, none⟩⟩
      (by decide) (by decide) (by decide) (by decide) (by decide) (by decide) (by decide)
      (by decide)).2 (Or.inl (by decide))⟩

/-! ## The response hook -/

/-- C8, as stated, fails: for a 200 response whose body is the gzip encoding of `hello`,
when the cache file cannot be written the hook returns an error and the cache file does not
hold `hello`. -/
theorem ModifyResponse_gzip_counterexample :
    (exampleResponse (ascii "GZ")).StatusCode = 200 ∧
    stringsContains ((exampleResponse (ascii "GZ")).Header.Get (ascii "Content-Encoding"))
      (ascii "gzip") = true ∧
    (exampleResponse (ascii "GZ")).Body.bind (exampleNet false).gunzip = some (ascii "hello") ∧
    (ModifyResponse (exampleNet false) (ascii "/cache") emptyDisk
      (exampleResponse (ascii "GZ"))).1 = some ProxyError.write ∧
    (ModifyResponse (exampleNet false) (ascii "/cache") emptyDisk
      (exampleResponse (ascii "GZ"))).2.2 (ascii "/cache/m/@v/list") = none := by
  refine ⟨by decide, by decide, by decide, by decide, by decide⟩

/-- C8, amended: for a 200 response that declares gzip and whose body is the gzip encoding
of `B`: when the cache file can be written, the hook succeeds and leaves a response with no
`Content-Encoding` header, `Content-Length` the decimal length of `B` and body `B`, and the
cache file at `DownloadRoot` joined with the URL path holds exactly `B` (no other file is
touched); when the write fails the hook returns the error and the cache is unchanged; when
the body does not decompress the hook returns an error and writes no cache file. -/
theorem ModifyResponse_gzip (net : Net) (DownloadRoot : GoString) (disk : Disk)
    (r : Response)
    (hok : r.StatusCode = 200)
    (hgz : stringsContains (r.Header.Get (ascii "Content-Encoding")) (ascii "gzip") = true) :
    (∀ B, r.Body.bind net.gunzip = some B →
      (net.writable (net.filepathJoin DownloadRoot r.requestPath) = true →
        (ModifyResponse net DownloadRoot disk r).1 = none ∧
        (ModifyResponse net DownloadRoot disk r).2.1.Header (ascii "Content-Encoding") = none ∧
        (ModifyResponse net DownloadRoot disk r).2.1.Header (ascii "Content-Length")
          = some [strconvItoa B.length] ∧
        (ModifyResponse net DownloadRoot disk r).2.1.Body = some B ∧
        (ModifyResponse net DownloadRoot disk r).2.2
          (net.filepathJoin DownloadRoot r.requestPath) = some B ∧
        ∀ file, file ≠ net.filepathJoin DownloadRoot r.requestPath →
          (ModifyResponse net DownloadRoot disk r).2.2 file = disk file) ∧
      (net.writable (net.filepathJoin DownloadRoot r.requestPath) = false →
        (ModifyResponse net DownloadRoot disk r).1 = some ProxyError.write ∧
        (ModifyResponse net DownloadRoot disk r).2.2 = disk)) ∧
    (r.Body.bind net.gunzip = none →
      (ModifyResponse net DownloadRoot disk r).1 = some ProxyError.gzip ∧
      (ModifyResponse net DownloadRoot disk r).2.2 = disk) := by
  have h302 : ¬ ((200 : Int) = 302) := by decide
  refine ⟨fun B hB => ⟨fun hw => ?_, fun hw => ?_⟩, fun hB => ?_⟩
  · have hce : ascii "Content-Encoding" ≠ ascii "Content-Length" := by decide
    simp only [ModifyResponse, hok, hgz, hB, renameioWriteFile, hw, if_true, h302, if_false,
      Header.Set, Header.Del, hce]
    refine ⟨trivial, trivial, trivial, trivial, ?_, ?_⟩
    · simp
    · intro file hf
      simp [hf]
  · simp [ModifyResponse, hok, hgz, hB, renameioWriteFile, hw]
  · simp [ModifyResponse, hok, hgz, hB]

/-- C8 (amended) at the response whose body `GZ` decodes to `hello`, with a cache that can
be written, and at a body that does not decode. -/
theorem ModifyResponse_gzip_witness :
    ((ModifyResponse (exampleNet true) (ascii "/cache") emptyDisk
        (exampleResponse (ascii "GZ"))).1 = none ∧
      (ModifyResponse (exampleNet true) (ascii "/cache") emptyDisk
        (exampleResponse (ascii "GZ"))).2.1.Header (ascii "Content-Encoding") = none ∧
      (ModifyResponse (exampleNet true) (ascii "/cache") emptyDisk
        (exampleResponse (ascii "GZ"))).2.1.Header (ascii "Content-Length")
          = some [ascii "5"] ∧
      (ModifyResponse (exampleNet true) (ascii "/cache") emptyDisk
        (exampleResponse (ascii "GZ"))).2.1.Body = some (ascii "hello") ∧
      (ModifyResponse (exampleNet true) (ascii "/cache") emptyDisk
        (exampleResponse (ascii "GZ"))).2.2 (ascii "/cache/m/@v/list") = some (ascii "hello")) ∧
    ((ModifyResponse (exampleNet true) (ascii "/cache") emptyDisk
        (exampleResponse (ascii "junk"))).1 = some ProxyError.gzip ∧
      (ModifyResponse (exampleNet true) (ascii "/cache") emptyDisk
        (exampleResponse (ascii "junk"))).2.2 = emptyDisk) := by
  have h := ((ModifyResponse_gzip (exampleNet true) (ascii "/cache") emptyDisk
    (exampleResponse (ascii "GZ")) (by decide) (by decide)).1 (ascii "hello") (by decide)).1
    (by decide)
  exact ⟨⟨h.1, h.2.1, h.2.2.1, h.2.2.2.1, h.2.2.2.2.1⟩,
    (ModifyResponse_gzip (exampleNet true) (ascii "/cache") emptyDisk
      (exampleResponse (ascii "junk")) (by decide) (by decide)).2 (by decide)⟩

end Goproxy
